import Mathlib

/-!
# Particle world of ASPECT: store, refinement serializer, rebinning, migration

A shallow embedding of `source/particle/world.cc`.  The particle store is the
`std::multimap<LevelInd, Particle>` of the class `World`, kept as a list of
entries in iteration order.  The finite element mesh, the mapping, the property
manager and the integrator are consumed through their interfaces only, so they
appear as records of functions.  Counters of type `unsigned int` and `int` are
natural numbers: populations and byte counts are taken to stay below `2^31`,
where the machine arithmetic of the source agrees with the one used here.
-/

namespace aspect

/-! ## Data model -/

/-- The cell key `LevelInd`, a `std::pair<int, int>` of level and index. -/
abbrev LevelInd := Int × Int

/-- The order of `std::pair<int, int>`: lexicographic. -/
def LevelInd.less (a b : LevelInd) : Bool :=
  decide (a.1 < b.1) || (decide (a.1 = b.1) && decide (a.2 < b.2))

/-- The order of `types::subdomain_id`, an unsigned integer. -/
def subdomain_less (a b : Nat) : Bool := decide (a < b)

/-- Modelled from the spec: the particle record (the class `Particle` is declared
outside `world.cc`): a location, an identifier and an opaque property payload.
The type of locations is left open, the store never computes with them. -/
structure Particle (Pt : Type) where
  location : Pt
  id : Nat
  properties : List Nat
deriving DecidableEq, Repr

/-- Modelled from the spec: the serialisation of the particle record.
`write_data p` are the bytes `Particle::write_data` puts at the cursor,
`from_bytes c` is the constructor `Particle(const void *&, data_len)`: the
particle read at the cursor `c` and the advanced cursor. -/
structure ParticleFormat (Pt : Type) where
  write_data : Particle Pt → List Nat
  from_bytes : List Nat → Particle Pt × List Nat

/-- The part of `Property::Manager` the world uses. -/
structure Manager (Pt : Type) where
  get_particle_size : Nat
  format : ParticleFormat Pt

/-- The part of `Integrator::Interface` the world uses: `data_length` counts
doubles, `write_data id` are the bytes written for a particle id, `read_data c id`
is the cursor after the payload of `id` has been read at `c`. -/
structure Integrator where
  data_length : Nat
  write_data : Nat → List Nat
  read_data : List Nat → Nat → List Nat

/-- What the code reads from an active cell iterator. -/
structure ActiveCell where
  level : Int
  index : Int
  subdomain_id : Nat
  is_locally_owned : Bool
  is_ghost : Bool
deriving DecidableEq, Repr

/-- The key `std::make_pair(cell->level(), cell->index())`. -/
def ActiveCell.key (c : ActiveCell) : LevelInd := (c.level, c.index)

/-- What the callbacks read from the `cell_iterator` they are given: its level
and index and the level and index of `cell->child(i)` for
`i < cell->number_of_children()`. -/
structure CellIterator where
  level : Int
  index : Int
  children : List LevelInd
deriving DecidableEq, Repr

/-- The key of the cell a callback is invoked on. -/
def CellIterator.key (c : CellIterator) : LevelInd := (c.level, c.index)

/-- The mesh side consumed by the world: the active cells in the order of
`begin_active() .. end()`, the mapping (`none` when
`transform_real_to_unit_cell` raises), `GeometryInfo::is_inside_unit_cell` and
`GridTools::find_active_cell_around_point` (`none` for `ExcPointNotFound`). -/
structure Mesh (Pt : Type) where
  active_cells : List ActiveCell
  transform_real_to_unit_cell : LevelInd → Pt → Option Pt
  is_inside_unit_cell : Pt → Bool
  find_active_cell_around_point : Pt → Option ActiveCell

/-- The status the mesh layer passes to the callbacks. -/
inductive CellStatus where
  | CELL_PERSIST
  | CELL_REFINE
  | CELL_COARSEN
deriving DecidableEq, Repr

/-! ## The multimap -/

section multimap
variable {κ α : Type}

/-- Insertion `std::multimap::insert`: after the last entry whose key is not
greater than the new key. -/
def multimap_insert (less : κ → κ → Bool) (kv : κ × α) : List (κ × α) → List (κ × α)
  | [] => [kv]
  | x :: xs => if less kv.1 x.1 then kv :: x :: xs else x :: multimap_insert less kv xs

/-- Range insertion `m.insert(first, last)`: the entries are inserted one by one. -/
def multimap_insert_range (less : κ → κ → Bool) (m : List (κ × α)) (range : List (κ × α)) :
    List (κ × α) :=
  range.foldl (fun acc kv => multimap_insert less kv acc) m

/-- The values of `equal_range(k)`, in iteration order. -/
def equal_range [DecidableEq κ] (m : List (κ × α)) (k : κ) : List α :=
  (m.filter (fun e => decide (e.1 = k))).map Prod.snd

/-- The member `count(k)`. -/
def multimap_count [DecidableEq κ] (m : List (κ × α)) (k : κ) : Nat :=
  (equal_range m k).length

/-- Erasing the range `equal_range(k)`. -/
def erase_range [DecidableEq κ] (m : List (κ × α)) (k : κ) : List (κ × α) :=
  m.filter (fun e => !decide (e.1 = k))

end multimap

/-- The particle store `std::multimap<LevelInd, Particle<dim> >`. -/
abbrev ParticleMap (Pt : Type) := List (LevelInd × Particle Pt)

/-- The migration buffer `std::multimap<types::subdomain_id, Particle<dim> >`. -/
abbrev LostMap (Pt : Type) := List (Nat × Particle Pt)

/-- The class `World<dim>`: its collaborators, its configuration and the store. -/
structure World (Pt : Type) where
  dim : Nat
  mesh : Mesh Pt
  property_manager : Manager Pt
  integrator : Integrator
  max_particles_per_cell : Nat
  particles : ParticleMap Pt

/-- The constant `coarsen_factor = (dim == 3) ? 8 : 4`. -/
def coarsen_factor (dim : Nat) : Nat := if dim = 3 then 8 else 4

/-- The test made on a cell and a location: the mapping does not raise and the
unit point is inside the unit cell. -/
def Mesh.unit_cell_test {Pt : Type} (mesh : Mesh Pt) (k : LevelInd) (x : Pt) : Bool :=
  match mesh.transform_real_to_unit_cell k x with
  | some p_unit => mesh.is_inside_unit_cell p_unit
  | none => false

/-! ## Refinement serializer -/

/-- The buffer of one cell as the callbacks see it: the leading `unsigned int`
and the bytes written behind it. -/
structure CellData where
  n_particles_in_cell : Nat
  data : List Nat
deriving DecidableEq, Repr

section serializer
variable {Pt : Type}

/-- The first loop of the `CELL_COARSEN` branch: the sum of the children's counts. -/
def count_children (particles : ParticleMap Pt) (children : List LevelInd) : Nat :=
  children.foldl (fun n child => n + multimap_count particles child) 0

/-- The inner loop of the `CELL_COARSEN` branch over the particles of one child:
`particle_index` runs on, a particle is written when
`!reduce_tracers || particle_index % coarsen_factor == 0`. -/
def write_child (fmt : ParticleFormat Pt) (reduce_tracers : Bool) (factor : Nat) :
    List (Particle Pt) → Nat → List Nat → Nat × List Nat
  | [], particle_index, data => (particle_index, data)
  | p :: rest, particle_index, data =>
    write_child fmt reduce_tracers factor rest (particle_index + 1)
      (if !reduce_tracers || particle_index % factor == 0 then data ++ fmt.write_data p
       else data)

/-- The second loop of the `CELL_COARSEN` branch over the children: each child's
range is written through `write_child` and then erased. -/
def store_children (fmt : ParticleFormat Pt) (reduce_tracers : Bool) (factor : Nat) :
    List LevelInd → ParticleMap Pt → Nat → List Nat → ParticleMap Pt × List Nat
  | [], particles, _, data => (particles, data)
  | child :: rest, particles, particle_index, data =>
    let written := write_child fmt reduce_tracers factor (equal_range particles child)
      particle_index data
    store_children fmt reduce_tracers factor rest (erase_range particles child)
      written.1 written.2

/-- The callback `World::store_tracers`. -/
def World.store_tracers (w : World Pt) (cell : CellIterator) (status : CellStatus) :
    World Pt × CellData :=
  match status with
  | CellStatus.CELL_COARSEN =>
    let n_particles_in_cell := count_children w.particles cell.children
    let reduce_tracers :=
      decide (w.max_particles_per_cell > 0) && decide (n_particles_in_cell > w.max_particles_per_cell)
    let written := store_children w.property_manager.format reduce_tracers
      (coarsen_factor w.dim) cell.children w.particles 0 []
    ({ w with particles := written.1 },
     { n_particles_in_cell :=
         if reduce_tracers then n_particles_in_cell / coarsen_factor w.dim
         else n_particles_in_cell,
       data := written.2 })
  | _ =>
    let particles_in_cell := equal_range w.particles cell.key
    ({ w with particles := erase_range w.particles cell.key },
     { n_particles_in_cell := particles_in_cell.length,
       data := (particles_in_cell.map w.property_manager.format.write_data).flatten })

/-- The loop over the children in the `CELL_REFINE` branch of `load_tracers`:
the particle is inserted under every child whose unit cell test accepts it. -/
def load_into_children (mesh : Mesh Pt) (p : Particle Pt) :
    List LevelInd → ParticleMap Pt → ParticleMap Pt
  | [], particles => particles
  | child :: rest, particles =>
    load_into_children mesh p rest
      (if mesh.unit_cell_test child p.location then
         multimap_insert LevelInd.less (child, p) particles
       else particles)

/-- The loop `for (i = 0; i < particles_in_cell; ++i)` of `load_tracers`, with
the read cursor. -/
def load_loop (mesh : Mesh Pt) (fmt : ParticleFormat Pt) (cell : CellIterator)
    (status : CellStatus) : Nat → List Nat → ParticleMap Pt → ParticleMap Pt
  | 0, _, particles => particles
  | n + 1, pdata, particles =>
    let read := fmt.from_bytes pdata
    load_loop mesh fmt cell status n read.2
      (match status with
       | CellStatus.CELL_REFINE => load_into_children mesh read.1 cell.children particles
       | _ => multimap_insert LevelInd.less (cell.key, read.1) particles)

/-- The callback `World::load_tracers`. -/
def World.load_tracers (w : World Pt) (cell : CellIterator) (status : CellStatus)
    (data : CellData) : World Pt :=
  let loaded := load_loop w.mesh w.property_manager.format cell status
    data.n_particles_in_cell data.data w.particles
  { w with particles := loaded }

end serializer

/-! ## Neighbour discovery -/

section migration
variable {Pt : Type}

/-- The function `World::find_neighbors`: the subdomain ids of the ghost cells
among the active cells, each pushed back the first time it is met. -/
def find_neighbors (mesh : Mesh Pt) : List Nat :=
  mesh.active_cells.foldl
    (fun neighbors cell =>
      if cell.is_ghost then
        (if neighbors.any (fun n => n == cell.subdomain_id) then neighbors
         else neighbors ++ [cell.subdomain_id])
      else neighbors)
    []

/-! ## Rebinning -/

/-- The three containers of the loop of `find_all_cells`: the store with the
visited entries that stay, `moved_particles` and `lost_particles`. -/
structure Rebinned (Pt : Type) where
  particles : ParticleMap Pt
  moved_particles : ParticleMap Pt
  lost_particles : LostMap Pt

/-- The loop of `find_all_cells` over the entries of the store, in iteration
order.  An entry whose key is not `(-1,-1)` and whose unit cell test succeeds is
left in place; otherwise the cell around the location is looked up and the entry
is erased, after a copy went to `moved_particles` (cell locally owned) or to
`lost_particles` (any other cell), or to neither when no cell is found. -/
def rebin_loop (mesh : Mesh Pt) : List (LevelInd × Particle Pt) → Rebinned Pt → Rebinned Pt
  | [], acc => acc
  | it :: rest, acc =>
    if it.1 ≠ ((-1, -1) : LevelInd) ∧ mesh.unit_cell_test it.1 it.2.location = true then
      rebin_loop mesh rest { acc with particles := acc.particles ++ [it] }
    else
      match mesh.find_active_cell_around_point it.2.location with
      | none => rebin_loop mesh rest acc
      | some cell =>
        if cell.is_locally_owned then
          rebin_loop mesh rest
            { acc with moved_particles :=
                multimap_insert LevelInd.less (cell.key, it.2) acc.moved_particles }
        else
          rebin_loop mesh rest
            { acc with lost_particles :=
                multimap_insert subdomain_less (cell.subdomain_id, it.2) acc.lost_particles }

/-- The hook `World::move_particles_back_in_mesh`, whose body is empty. -/
def World.move_particles_back_in_mesh (w : World Pt) : World Pt := w

/-- The part of `find_all_cells` before the migration: the loop, the bulk
insertion of `moved_particles` and the hook.  The result is the world and
`lost_particles`. -/
def World.rebin (w : World Pt) : World Pt × LostMap Pt :=
  let r := rebin_loop w.mesh w.particles { particles := [], moved_particles := [], lost_particles := [] }
  let inserted := multimap_insert_range LevelInd.less r.particles r.moved_particles
  (World.move_particles_back_in_mesh { w with particles := inserted }, r.lost_particles)

/-! ## Migration -/

/-- The value `particle_size` of `send_recv_particles`:
`get_particle_size() + data_length() * sizeof(double)`. -/
def World.particle_size (w : World Pt) : Nat :=
  w.property_manager.get_particle_size + w.integrator.data_length * 8

/-- The vectors `num_send_data`, `send_offsets`, the counter `total_send_data`
and the bytes written through the cursor `data` into `send_data`. -/
structure SendBuffers where
  num_send_data : List Nat
  send_offsets : List Nat
  total_send_data : Nat
  data : List Nat
deriving DecidableEq, Repr

/-- The copy loop over the particles staged for one neighbour: the particle
record, then the integrator payload of its id. -/
def write_range (fmt : ParticleFormat Pt) (integrator : Integrator) :
    List (Particle Pt) → List Nat → List Nat
  | [], data => data
  | p :: rest, data =>
    write_range fmt integrator rest (data ++ fmt.write_data p ++ integrator.write_data p.id)

/-- The loop of `send_recv_particles` over the neighbours that fills the send
vectors. -/
def pack_loop (w : World Pt) (send_particles : LostMap Pt) :
    List Nat → SendBuffers → SendBuffers
  | [], acc => acc
  | neighbor :: rest, acc =>
    let send_particle_range := equal_range send_particles neighbor
    let num_send_particles := send_particle_range.length
    pack_loop w send_particles rest
      { num_send_data := acc.num_send_data ++ [num_send_particles * w.particle_size],
        send_offsets := acc.send_offsets ++ [acc.total_send_data],
        total_send_data := acc.total_send_data + num_send_particles * w.particle_size,
        data := write_range w.property_manager.format w.integrator send_particle_range acc.data }

/-- The packing part of `send_recv_particles`. -/
def World.pack (w : World Pt) (send_particles : LostMap Pt) : SendBuffers :=
  pack_loop w send_particles (find_neighbors w.mesh)
    { num_send_data := [], send_offsets := [], total_send_data := 0, data := [] }

/-- The loop `for (i = 0; i < num_recv_particles; ++i)` of `send_recv_particles`:
`i` is the arrival index, the second argument counts the iterations left, then
come the read cursor and the store. -/
def reinsert_loop (w : World Pt) : Nat → Nat → List Nat → ParticleMap Pt →
    ParticleMap Pt × List Nat
  | _, 0, recv_data_it, particles => (particles, recv_data_it)
  | i, n + 1, recv_data_it, particles =>
    let read := w.property_manager.format.from_bytes recv_data_it
    let recv_particle := read.1
    let next := w.integrator.read_data read.2 recv_particle.id
    match w.mesh.find_active_cell_around_point recv_particle.location with
    | none => reinsert_loop w (i + 1) n next particles
    | some cell =>
      if cell.is_locally_owned then
        let found_cell := cell.key
        let reduce_tracers := decide (w.max_particles_per_cell > 0)
          && decide (multimap_count particles found_cell = w.max_particles_per_cell)
        if !reduce_tracers || i % coarsen_factor w.dim == 0 then
          reinsert_loop w (i + 1) n next
            (multimap_insert LevelInd.less (found_cell, recv_particle) particles)
        else reinsert_loop w (i + 1) n next particles
      else reinsert_loop w (i + 1) n next particles

/-- The function `World::send_recv_particles`.  What the two exchanges deliver
is an argument: `num_recv_data` holds the byte counts received from the
neighbours, in the order of `find_neighbors`, and `recv_data` the bytes received
into the buffer of `total_recv_data` bytes.  The result is `none` when one of the
two `AssertThrow` checks on the cursors fails. -/
def World.send_recv_particles (w : World Pt) (send_particles : LostMap Pt)
    (num_recv_data : List Nat) (recv_data : List Nat) : Option (World Pt) :=
  let sent := w.pack send_particles
  if sent.data.length ≠ send_particles.length * w.particle_size then none
  else
    let total_recv_data := num_recv_data.sum
    let num_recv_particles := total_recv_data / w.particle_size
    let r := reinsert_loop w 0 num_recv_particles recv_data w.particles
    if r.2 ≠ [] then none else some { w with particles := r.1 }

/-- The function `World::find_all_cells` on one process; `n_mpi_processes` is the
size of the communicator and the last two arguments are what the exchanges of
`send_recv_particles` deliver. -/
def World.find_all_cells (w : World Pt) (n_mpi_processes : Nat)
    (num_recv_data : List Nat) (recv_data : List Nat) : Option (World Pt) :=
  let r := w.rebin
  if n_mpi_processes > 1 then r.1.send_recv_particles r.2 num_recv_data recv_data
  else some r.1

/-! ## All processes together -/

end migration

/-! ## Notions used in the statements -/

section notions
variable {Pt : Type}

/-- The round trip law of the particle record: reading at a cursor where a
particle was written gives the particle back and leaves the cursor behind it. -/
def RoundTrip (fmt : ParticleFormat Pt) : Prop :=
  ∀ (p : Particle Pt) (rest : List Nat), fmt.from_bytes (fmt.write_data p ++ rest) = (p, rest)

/-- The bytes of a sequence of particle records. -/
def records (fmt : ParticleFormat Pt) (ps : List (Particle Pt)) : List Nat :=
  (ps.map fmt.write_data).flatten

/-- The entries one iteration of the loop of `load_tracers` adds for a particle. -/
def load_entries (mesh : Mesh Pt) (cell : CellIterator) (status : CellStatus)
    (p : Particle Pt) : List (LevelInd × Particle Pt) :=
  match status with
  | CellStatus.CELL_REFINE =>
    (cell.children.filter (fun child => mesh.unit_cell_test child p.location)).map
      (fun child => (child, p))
  | _ => [(cell.key, p)]

/-- The stream obtained by concatenating the children's particles in child order. -/
def children_stream (particles : ParticleMap Pt) (children : List LevelInd) :
    List (Particle Pt) :=
  (children.map (equal_range particles)).flatten

/-- The elements of a stream at the positions `i` with `(start + i) % factor = 0`. -/
def stride_pick {α : Type} (factor : Nat) : List α → Nat → List α
  | [], _ => []
  | a :: rest, start =>
    if start % factor = 0 then a :: stride_pick factor rest (start + 1)
    else stride_pick factor rest (start + 1)

/-- The store after `store_tracers` and `load_tracers` with the same status on
the same cell. -/
def World.store_then_load (w : World Pt) (cell : CellIterator) (status : CellStatus) :
    ParticleMap Pt :=
  ((w.store_tracers cell status).1.load_tracers cell status
    (w.store_tracers cell status).2).particles

/-- The children of a refined cell conserve its population without duplication:
after `store_tracers` and `load_tracers` with status REFINE the child keys hold
in total as many particles as the parent held, and no particle is under two
different child keys. -/
def RefineConserves (w : World Pt) (cell : CellIterator) : Prop :=
  ((cell.children.map
      (multimap_count (w.store_then_load cell CellStatus.CELL_REFINE))).sum
    = multimap_count w.particles cell.key)
  ∧ ∀ c ∈ cell.children, ∀ c' ∈ cell.children, ∀ p : Particle Pt,
      p ∈ equal_range (w.store_then_load cell CellStatus.CELL_REFINE) c →
      p ∈ equal_range (w.store_then_load cell CellStatus.CELL_REFINE) c' → c = c'

/-- The unit cell test of exactly one child accepts the location. -/
def AcceptedByOneChild (mesh : Mesh Pt) (cell : CellIterator) (x : Pt) : Prop :=
  ∃ c ∈ cell.children, mesh.unit_cell_test c x = true
    ∧ ∀ c' ∈ cell.children, mesh.unit_cell_test c' x = true → c' = c

/-- The elements at the positions `0, factor, 2 * factor, ...` of a stream, one
for each full block of `factor` elements. -/
def strided_positions {α : Type} (stream : List α) (factor : Nat) : List α :=
  (List.range (stream.length / factor)).filterMap (fun j => stream[j * factor]?)

/-- The particles `write_child` and `store_children` write from a stream that
starts at index `start`. -/
def written_particles (reduce_tracers : Bool) (factor : Nat) (stream : List (Particle Pt))
    (start : Nat) : List (Particle Pt) :=
  if reduce_tracers then stride_pick factor stream start else stream

/-- The store after the ranges of the children have been erased. -/
def erase_children (particles : ParticleMap Pt) (children : List LevelInd) : ParticleMap Pt :=
  children.foldl erase_range particles

/-- The four outcomes of the rebinning of one entry of the store. -/
inductive Outcome where
  | kept
  | discarded
  | relocated (cell : LevelInd)
  | staged (subdomain : Nat)
deriving DecidableEq, Repr

/-- The outcome of an entry as the rebinning engine is described: an entry with
a key other than `(-1,-1)` whose location passes the unit cell test of the keyed
cell is kept; otherwise the cell around the location is looked up, and the entry
is discarded when there is none, relocated under the key of a locally owned
cell, or staged under the subdomain id of any other cell. -/
def classify (mesh : Mesh Pt) (it : LevelInd × Particle Pt) : Outcome :=
  if it.1 ≠ ((-1, -1) : LevelInd) ∧ mesh.unit_cell_test it.1 it.2.location = true then
    Outcome.kept
  else
    match mesh.find_active_cell_around_point it.2.location with
    | none => Outcome.discarded
    | some cell =>
      if cell.is_locally_owned then Outcome.relocated cell.key
      else Outcome.staged cell.subdomain_id

/-- The entry of the store an outcome leaves for a particle, if any. -/
def stored_entry (mesh : Mesh Pt) (it : LevelInd × Particle Pt) :
    Option (LevelInd × Particle Pt) :=
  match classify mesh it with
  | Outcome.kept => some it
  | Outcome.relocated cell => some (cell, it.2)
  | _ => none

/-- The entry of the migration buffer an outcome leaves for a particle, if any. -/
def staged_entry (mesh : Mesh Pt) (it : LevelInd × Particle Pt) : Option (Nat × Particle Pt) :=
  match classify mesh it with
  | Outcome.staged subdomain => some (subdomain, it.2)
  | _ => none

/-- The entry of `moved_particles` an outcome leaves for a particle, if any. -/
def relocated_entry (mesh : Mesh Pt) (it : LevelInd × Particle Pt) :
    Option (LevelInd × Particle Pt) :=
  match classify mesh it with
  | Outcome.relocated cell => some (cell, it.2)
  | _ => none

/-- The number of entries with the outcome `kept`. -/
def kept_count (mesh : Mesh Pt) (particles : ParticleMap Pt) : Nat :=
  (particles.filter (fun it => decide (classify mesh it = Outcome.kept))).length

/-- The number of entries with an outcome `relocated`. -/
def relocated_count (mesh : Mesh Pt) (particles : ParticleMap Pt) : Nat :=
  (particles.filterMap (relocated_entry mesh)).length

/-- The number of entries with an outcome `staged`. -/
def staged_count (mesh : Mesh Pt) (particles : ParticleMap Pt) : Nat :=
  (particles.filterMap (staged_entry mesh)).length

/-- The number of entries with the outcome `discarded`. -/
def discarded_count (mesh : Mesh Pt) (particles : ParticleMap Pt) : Nat :=
  (particles.filter (fun it => decide (classify mesh it = Outcome.discarded))).length

/-- The key refers to a locally owned cell of the mesh. -/
def LocallyOwnedKey (mesh : Mesh Pt) (k : LevelInd) : Prop :=
  ∃ c ∈ mesh.active_cells, c.key = k ∧ c.is_locally_owned = true

instance decidableLocallyOwnedKey (mesh : Mesh Pt) (k : LevelInd) :
    Decidable (LocallyOwnedKey mesh k) := by
  unfold LocallyOwnedKey
  exact inferInstance

/-- The bytes `send_recv_particles` writes for a sequence of particles: for each
the particle record, then the integrator payload of its id. -/
def wire (fmt : ParticleFormat Pt) (integrator : Integrator) (ps : List (Particle Pt)) :
    List Nat :=
  (ps.map (fun p => fmt.write_data p ++ integrator.write_data p.id)).flatten

/-- The record of the particle has the sizes the manager and the integrator
announce. -/
def HasWireSize (pm : Manager Pt) (integrator : Integrator) (p : Particle Pt) : Prop :=
  (pm.format.write_data p).length = pm.get_particle_size
    ∧ (integrator.write_data p.id).length = integrator.data_length * 8

/-- The loop of `find_all_cells` leaves the entry in place: its key is not
`(-1,-1)` and the unit cell test of the keyed cell accepts its location.  For
such an entry the loop looks no cell up. -/
def StaysInPlace (mesh : Mesh Pt) (it : LevelInd × Particle Pt) : Prop :=
  it.1 ≠ ((-1, -1) : LevelInd) ∧ mesh.unit_cell_test it.1 it.2.location = true

instance decidableStaysInPlace (mesh : Mesh Pt) (it : LevelInd × Particle Pt) :
    Decidable (StaysInPlace mesh it) := by
  unfold StaysInPlace
  exact inferInstance

end notions

/-! ## Concrete meshes and formats for the examples -/

/-- Locations of the examples: coordinates in hundredths of the unit length. -/
abbrev Centi := Int × Int

/-- A natural number for an integer: even for the non-negative ones. -/
def encode_int (x : Int) : Nat := if 0 ≤ x then 2 * x.toNat else 2 * (-x).toNat - 1

/-- The integer of a natural number, inverse to `encode_int`. -/
def decode_int (n : Nat) : Int :=
  if n % 2 = 0 then ((n / 2 : Nat) : Int) else -(((n + 1) / 2 : Nat) : Int)

/-- A format for particles in the plane: the two coordinates, the id, the length
of the property payload and the payload. -/
def plane_format : ParticleFormat Centi where
  write_data := fun p =>
    [encode_int p.location.1, encode_int p.location.2, p.id, p.properties.length]
      ++ p.properties
  from_bytes := fun c =>
    match c with
    | x :: y :: id :: len :: rest =>
      ({ location := (decode_int x, decode_int y), id := id, properties := rest.take len },
       rest.drop len)
    | _ => ({ location := (0, 0), id := 0, properties := [] }, [])

/-- A property manager for particles without properties in the plane. -/
def plane_manager : Manager Centi := { get_particle_size := 4, format := plane_format }

/-- An integrator without per-particle data. -/
def plain_integrator : Integrator :=
  { data_length := 0, write_data := fun _ => [], read_data := fun c _ => c }

/-- The unit square `[0,100] x [0,100]` (in hundredths) as the single cell `(0,0)`
of one process, under the identity mapping. -/
def unit_square_mesh : Mesh Centi where
  active_cells :=
    [{ level := 0, index := 0, subdomain_id := 0, is_locally_owned := true, is_ghost := false }]
  transform_real_to_unit_cell := fun k x => if k = (0, 0) then some x else none
  is_inside_unit_cell := fun u =>
    decide (0 ≤ u.1) && decide (u.1 ≤ 100) && decide (0 ≤ u.2) && decide (u.2 ≤ 100)
  find_active_cell_around_point := fun x =>
    if 0 ≤ x.1 ∧ x.1 ≤ 100 ∧ 0 ≤ x.2 ∧ x.2 ≤ 100 then
      some { level := 0, index := 0, subdomain_id := 0, is_locally_owned := true,
             is_ghost := false }
    else none

/-- A particle without properties. -/
def particle_at (x y : Int) (id : Nat) : Particle Centi :=
  { location := (x, y), id := id, properties := [] }

/-- Scenario S1: one particle at `(0.25, 0.75)` in the unit square. -/
def world_S1 : World Centi :=
  { dim := 2, mesh := unit_square_mesh, property_manager := plane_manager,
    integrator := plain_integrator, max_particles_per_cell := 0,
    particles := [((0, 0), particle_at 25 75 1)] }

/-- The cell iterator of the single cell of `unit_square_mesh`. -/
def cell_S1 : CellIterator := { level := 0, index := 0, children := [] }

/-- The unit square refined once: the children `(1,0) .. (1,3)` are
`[0,50]x[0,50]`, `[50,100]x[0,50]`, `[0,50]x[50,100]` and `[50,100]x[50,100]`, each
mapped affinely onto the unit cell `[0,100] x [0,100]`, whose test is the closed
one of `GeometryInfo::is_inside_unit_cell`. -/
def refined_square_mesh : Mesh Centi where
  active_cells :=
    [{ level := 1, index := 0, subdomain_id := 0, is_locally_owned := true, is_ghost := false },
     { level := 1, index := 1, subdomain_id := 0, is_locally_owned := true, is_ghost := false },
     { level := 1, index := 2, subdomain_id := 0, is_locally_owned := true, is_ghost := false },
     { level := 1, index := 3, subdomain_id := 0, is_locally_owned := true, is_ghost := false }]
  transform_real_to_unit_cell := fun k x =>
    if k = (1, 0) then some (2 * x.1, 2 * x.2)
    else if k = (1, 1) then some (2 * x.1 - 100, 2 * x.2)
    else if k = (1, 2) then some (2 * x.1, 2 * x.2 - 100)
    else if k = (1, 3) then some (2 * x.1 - 100, 2 * x.2 - 100)
    else none
  is_inside_unit_cell := fun u =>
    decide (0 ≤ u.1) && decide (u.1 ≤ 100) && decide (0 ≤ u.2) && decide (u.2 ≤ 100)
  find_active_cell_around_point := fun x =>
    if 0 ≤ x.1 ∧ x.1 ≤ 100 ∧ 0 ≤ x.2 ∧ x.2 ≤ 100 then
      some { level := 1, index := (if x.1 ≤ 50 then 0 else 1) + (if x.2 ≤ 50 then 0 else 2),
             subdomain_id := 0, is_locally_owned := true, is_ghost := false }
    else none

/-- The iterator of the refined unit square with its four children. -/
def cell_S2 : CellIterator :=
  { level := 0, index := 0, children := [(1, 0), (1, 1), (1, 2), (1, 3)] }

/-- A world over the refined unit square whose store holds the given entries. -/
def refined_world (Nmax : Nat) (particles : ParticleMap Centi) : World Centi :=
  { dim := 2, mesh := refined_square_mesh, property_manager := plane_manager,
    integrator := plain_integrator, max_particles_per_cell := Nmax,
    particles := particles }

/-- Scenario S2: the parent holds four particles, one in the middle of each
quadrant. -/
def world_S2 : World Centi :=
  refined_world 0
    [((0, 0), particle_at 25 25 1), ((0, 0), particle_at 75 25 2),
     ((0, 0), particle_at 25 75 3), ((0, 0), particle_at 75 75 4)]

/-- A parent holding one particle on the face shared by the children `(1,0)`
and `(1,1)`. -/
def world_shared_face : World Centi :=
  refined_world 0 [((0, 0), particle_at 50 25 1)]

/-- Particles `first, first + 1, ..., first + n - 1` by id, all at `(x, y)`. -/
def particles_from (x y : Int) (first : Nat) (n : Nat) : List (Particle Centi) :=
  (List.range n).map (fun i => particle_at x y (first + i))

/-- The entries of the given particles under one key. -/
def under (k : LevelInd) (ps : List (Particle Centi)) : ParticleMap Centi :=
  ps.map (fun p => (k, p))

/-- Scenario S3: four children with four particles each and a cap of four. -/
def world_S3 : World Centi :=
  refined_world 4
    (under (1, 0) (particles_from 25 25 1 4) ++ under (1, 1) (particles_from 75 25 5 4)
      ++ under (1, 2) (particles_from 25 75 9 4) ++ under (1, 3) (particles_from 75 75 13 4))

/-- Four children holding five particles in total, under a cap of four. -/
def world_five : World Centi :=
  refined_world 4
    (under (1, 0) (particles_from 25 25 1 2) ++ under (1, 1) (particles_from 75 25 3 1)
      ++ under (1, 2) (particles_from 25 75 4 1) ++ under (1, 3) (particles_from 75 75 5 1))

/-- The left half `[0,50] x [0,100]` of the unit square, owned by process 0, as
process `rank` sees it. -/
def left_cell (rank : Nat) : ActiveCell :=
  { level := 0, index := 0, subdomain_id := 0, is_locally_owned := decide (rank = 0),
    is_ghost := decide (rank ≠ 0) }

/-- The right half `[50,100] x [0,100]` of the unit square, owned by process 1,
as process `rank` sees it. -/
def right_cell (rank : Nat) : ActiveCell :=
  { level := 0, index := 1, subdomain_id := 1, is_locally_owned := decide (rank = 1),
    is_ghost := decide (rank ≠ 1) }

/-- The unit square split at `x = 0.5` between two processes, as process `rank`
sees it: process 0 owns `x < 0.5`, process 1 owns `x ≥ 0.5`. -/
def two_rank_mesh (rank : Nat) : Mesh Centi where
  active_cells := [left_cell rank, right_cell rank]
  transform_real_to_unit_cell := fun k x =>
    if k = (0, 0) then some (2 * x.1, x.2)
    else if k = (0, 1) then some (2 * x.1 - 100, x.2)
    else none
  is_inside_unit_cell := fun u =>
    decide (0 ≤ u.1) && decide (u.1 ≤ 100) && decide (0 ≤ u.2) && decide (u.2 ≤ 100)
  find_active_cell_around_point := fun x =>
    if 0 ≤ x.1 ∧ x.1 ≤ 100 ∧ 0 ≤ x.2 ∧ x.2 ≤ 100 then
      some (if x.1 < 50 then left_cell rank else right_cell rank)
    else none

/-- The world of process `rank` over the split unit square. -/
def two_rank_world (rank : Nat) (Nmax : Nat) (particles : ParticleMap Centi) : World Centi :=
  { dim := 2, mesh := two_rank_mesh rank, property_manager := plane_manager,
    integrator := plain_integrator, max_particles_per_cell := Nmax,
    particles := particles }

/-- Process 1 with an unlocated particle, a particle still in its cell and one
that moved into the cell of process 0. -/
def world_rebin_example : World Centi :=
  two_rank_world 1 0
    [((-1, -1), particle_at 75 50 1), ((0, 1), particle_at 60 50 2),
     ((0, 1), particle_at 20 50 3)]

/-- The store of `world_rebin_example` after `find_all_cells` with one arrival. -/
def world_rebin_example_after : World Centi :=
  two_rank_world 1 0
    [((0, 1), particle_at 60 50 2), ((0, 1), particle_at 75 50 1),
     ((0, 1), particle_at 80 20 7)]

/-- Scenario S6 on process 1: the cell `(0,1)` holds eight particles and the cap
is eight. -/
def world_S6 : World Centi :=
  two_rank_world 1 8 (under (0, 1) (particles_from 75 50 1 8))

/-- Scenario S6: the eight arrivals, all located in the cell `(0,1)`. -/
def arrivals_S6 : List (Particle Centi) := particles_from 80 20 101 8

/-- The elements of a list in the order of their first occurrence, each once. -/
def first_occurrences : List Nat → List Nat
  | [] => []
  | a :: rest => a :: (first_occurrences rest).filter (fun x => !decide (x = a))

/-- The subdomain ids of the ghost cells, in the order of the enumeration of the
active cells. -/
def ghost_subdomain_ids {Pt : Type} (mesh : Mesh Pt) : List Nat :=
  (mesh.active_cells.filter (fun c => c.is_ghost)).map (fun c => c.subdomain_id)

/-- An integrator with a payload of one double per particle. -/
def one_double_integrator : Integrator :=
  { data_length := 1, write_data := fun id => [id, 0, 0, 0, 0, 0, 0, 0],
    read_data := fun c _ => c.drop 8 }

/-- Process 0 of the split unit square with `one_double_integrator`. -/
def world_one_double : World Centi :=
  { dim := 2, mesh := two_rank_mesh 0, property_manager := plane_manager,
    integrator := one_double_integrator, max_particles_per_cell := 0, particles := [] }

/-- The byte counts of the size exchange as if `data_length()` were a number of
bytes: for each neighbour the number of particles staged for it times
`get_particle_size() + data_length()`. -/
def SizesWithDataLengthInBytes {Pt : Type} (w : World Pt) (send_particles : LostMap Pt) : Prop :=
  (w.pack send_particles).num_send_data
    = (find_neighbors w.mesh).map (fun n => (equal_range send_particles n).length
        * (w.property_manager.get_particle_size + w.integrator.data_length))

/-- The subdomain id of the cells a process knows nothing about. -/
def artificial_subdomain_id : Nat := 4294967294

/-- A strip of three cells side by side as process 0 sees it: its own cell
`(0,0)`, the ghost cell `(0,1)` of process 1, and the cell `(0,2)`, which is
neither locally owned nor a ghost cell and carries `artificial_subdomain_id`. -/
def strip_mesh : Mesh Centi where
  active_cells :=
    [{ level := 0, index := 0, subdomain_id := 0, is_locally_owned := true, is_ghost := false },
     { level := 0, index := 1, subdomain_id := 1, is_locally_owned := false, is_ghost := true },
     { level := 0, index := 2, subdomain_id := artificial_subdomain_id,
       is_locally_owned := false, is_ghost := false }]
  transform_real_to_unit_cell := fun k x =>
    if k = (0, 0) then some (3 * x.1, x.2)
    else if k = (0, 1) then some (3 * x.1 - 100, x.2)
    else if k = (0, 2) then some (3 * x.1 - 200, x.2)
    else none
  is_inside_unit_cell := fun u =>
    decide (0 ≤ u.1) && decide (u.1 ≤ 100) && decide (0 ≤ u.2) && decide (u.2 ≤ 100)
  find_active_cell_around_point := fun x =>
    if 0 ≤ x.1 ∧ x.1 ≤ 100 ∧ 0 ≤ x.2 ∧ x.2 ≤ 100 then
      some (if 3 * x.1 < 100 then
              { level := 0, index := 0, subdomain_id := 0, is_locally_owned := true,
                is_ghost := false }
            else if 3 * x.1 < 200 then
              { level := 0, index := 1, subdomain_id := 1, is_locally_owned := false,
                is_ghost := true }
            else
              { level := 0, index := 2, subdomain_id := artificial_subdomain_id,
                is_locally_owned := false, is_ghost := false })
    else none

/-- Process 0 of the strip with a particle that moved from its cell to
`(0.9, 0.5)`, two cells away. -/
def strip_world : World Centi :=
  { dim := 2, mesh := strip_mesh, property_manager := plane_manager,
    integrator := plain_integrator, max_particles_per_cell := 0,
    particles := [((0, 0), particle_at 90 50 1)] }

/-- The cell `i` of a strip of three cells side by side, cell `i` owned by
process `i`, as process `rank` sees it: its own cell is locally owned, the cell
next to it is a ghost cell, and the cell two away is neither and carries
`artificial_subdomain_id`. -/
def strip_cell (rank i : Nat) : ActiveCell :=
  if i = rank then
    { level := 0, index := (i : Int), subdomain_id := i, is_locally_owned := true,
      is_ghost := false }
  else if i = rank + 1 ∨ rank = i + 1 then
    { level := 0, index := (i : Int), subdomain_id := i, is_locally_owned := false,
      is_ghost := true }
  else
    { level := 0, index := (i : Int), subdomain_id := artificial_subdomain_id,
      is_locally_owned := false, is_ghost := false }

/-- The strip of three cells as process `rank` sees it. -/
def strip_mesh_of (rank : Nat) : Mesh Centi where
  active_cells := [strip_cell rank 0, strip_cell rank 1, strip_cell rank 2]
  transform_real_to_unit_cell := fun k x =>
    if k = (0, 0) then some (3 * x.1, x.2)
    else if k = (0, 1) then some (3 * x.1 - 100, x.2)
    else if k = (0, 2) then some (3 * x.1 - 200, x.2)
    else none
  is_inside_unit_cell := fun u =>
    decide (0 ≤ u.1) && decide (u.1 ≤ 100) && decide (0 ≤ u.2) && decide (u.2 ≤ 100)
  find_active_cell_around_point := fun x =>
    if 0 ≤ x.1 ∧ x.1 ≤ 100 ∧ 0 ≤ x.2 ∧ x.2 ≤ 100 then
      some (if 3 * x.1 < 100 then strip_cell rank 0
            else if 3 * x.1 < 200 then strip_cell rank 1
            else strip_cell rank 2)
    else none

/-- The world of process `rank` over the strip of three cells, without a cap. -/
def strip_world_of (rank : Nat) (particles : ParticleMap Centi) : World Centi :=
  { dim := 2, mesh := strip_mesh_of rank, property_manager := plane_manager,
    integrator := plain_integrator, max_particles_per_cell := 0, particles := particles }

/-- Three processes on the strip after an advection: the particle of process 0
is at `(0.4, 0.5)`, in the cell of process 1; the particle of process 1 is at
`(0.7, 0.5)`, in the cell of process 2; the particle of process 2 is at
`(0.9, 0.5)`, still in its cell.  Process 0 sees the cell of process 2 as
neither its own nor a ghost cell. -/
def ranks_strip : List (World Centi) :=
  [strip_world_of 0 [((0, 0), particle_at 40 50 1)],
   strip_world_of 1 [((0, 1), particle_at 70 50 2)],
   strip_world_of 2 [((0, 2), particle_at 90 50 3)]]

/-- After the packing loop of `send_recv_particles` the write cursor is at the end
of the send buffer: the bytes written are as many as the buffer has. -/
def PackFramed {Pt : Type} (w : World Pt) (send_particles : LostMap Pt) : Prop :=
  (w.pack send_particles).data.length = send_particles.length * w.particle_size

/-- A format with records of four cells: the two coordinates, the id and a
padding cell; reading takes the next four cells. -/
def fixed_format : ParticleFormat Centi where
  write_data := fun p => [encode_int p.location.1, encode_int p.location.2, p.id, 0]
  from_bytes := fun c =>
    ({ location := (decode_int (c.getD 0 0), decode_int (c.getD 1 0)), id := c.getD 2 0,
       properties := [] },
     c.drop 4)

/-- The property manager of `fixed_format`. -/
def fixed_manager : Manager Centi := { get_particle_size := 4, format := fixed_format }

/-- Process 1 of the split unit square with an empty store and a cap of one. -/
def world_unpack : World Centi :=
  { dim := 2, mesh := two_rank_mesh 1, property_manager := fixed_manager,
    integrator := plain_integrator, max_particles_per_cell := 1, particles := [] }

/-- Four arrivals: one that is inserted, one that the cap drops, one in the cell
of process 0 and one outside the mesh. -/
def arrivals_unpack : List (Particle Centi) :=
  [particle_at 80 20 1, particle_at 80 30 2, particle_at 20 50 3, particle_at 500 50 4]

/-- The function `World::add_particle`.  The iterator `it` is built from the
level and the index of `cell`; the comparison of `it` with
`get_triangulation().end()` is a service of the triangulation and is the argument
`is_end`.  The result is `none` when the `AssertThrow` fails. -/
def World.add_particle {Pt : Type} (w : World Pt) (is_end : LevelInd → Bool)
    (particle : Particle Pt) (cell : LevelInd) : Option (World Pt) :=
  if is_end cell then none
  else some { w with particles := multimap_insert LevelInd.less (cell, particle) w.particles }

/-- Whether the iterator `add_particle` builds from the level and the index `k`
equals `this->get_triangulation().end()`.  The iterators compare by level and
index, and the past-the-end iterator of a triangulation has level `-1` and index
`-1`, the sentinel `find_all_cells` tests for; an iterator built from any other
level and index differs from it, whatever cells the mesh has. -/
def Mesh.is_end {Pt : Type} (_mesh : Mesh Pt) (k : LevelInd) : Bool :=
  decide (k = ((-1, -1) : LevelInd))

/-- Every key of the store holds at most `max_particles_per_cell` particles. -/
def DensityBounded {Pt : Type} (w : World Pt) : Prop :=
  ∀ k, multimap_count w.particles k ≤ w.max_particles_per_cell

/-- The states of a world reachable from the empty store by `add_particle`, by
`find_all_cells` with what the exchanges deliver, and by the store and load
callbacks on a cell. -/
inductive Reachable {Pt : Type} (w0 : World Pt) (is_end : LevelInd → Bool) : World Pt → Prop
  | start : Reachable w0 is_end { w0 with particles := [] }
  | add (w w1 : World Pt) (p : Particle Pt) (k : LevelInd) :
      Reachable w0 is_end w → w.add_particle is_end p k = some w1 → Reachable w0 is_end w1
  | rebin (w w1 : World Pt) (n : Nat) (num_recv_data recv_data : List Nat) :
      Reachable w0 is_end w → w.find_all_cells n num_recv_data recv_data = some w1 →
      Reachable w0 is_end w1
  | adapt (w : World Pt) (cell : CellIterator) (status : CellStatus) :
      Reachable w0 is_end w →
      Reachable w0 is_end { w with particles := w.store_then_load cell status }

/-- What the mesh layer guarantees when it invokes the callbacks on a cell: the
children of a cell to refine hold no particles yet, a parent to coarsen holds no
particles and has at most `coarsen_factor` children. -/
def CallbackReady {Pt : Type} (w : World Pt) (cell : CellIterator) (status : CellStatus) :
    Prop :=
  match status with
  | CellStatus.CELL_PERSIST => True
  | CellStatus.CELL_REFINE => ∀ c ∈ cell.children, equal_range w.particles c = []
  | CellStatus.CELL_COARSEN =>
    equal_range w.particles cell.key = [] ∧ cell.children.length ≤ coarsen_factor w.dim

/-- A world over the single unit square cell with a cap of one. -/
def world_cap_one : World Centi :=
  { dim := 2, mesh := unit_square_mesh, property_manager := plane_manager,
    integrator := plain_integrator, max_particles_per_cell := 1, particles := [] }

/-- The loop of `World::get_global_max_tracer_per_cell` over the active cells:
the largest number of particles a locally owned cell holds. -/
def World.local_max_tracer_per_cell {Pt : Type} (w : World Pt) : Nat :=
  w.mesh.active_cells.foldl
    (fun local_max_tracer_per_cell cell =>
      if cell.is_locally_owned then
        max local_max_tracer_per_cell (multimap_count w.particles cell.key)
      else local_max_tracer_per_cell)
    0

/-- The function `World::get_global_max_tracer_per_cell`: the maximum over the
communicator of the local values; `others` are the values of the other
processes. -/
def World.get_global_max_tracer_per_cell {Pt : Type} (w : World Pt) (others : List Nat) : Nat :=
  others.foldl max w.local_max_tracer_per_cell

/-- The value `transfer_size_per_cell` of `register_store_callback_function`:
`sizeof (unsigned int) + (get_particle_size() * max_tracers_per_cell) * pow(2,dim)`. -/
def World.transfer_size_per_cell {Pt : Type} (w : World Pt) (max_tracers_per_cell : Nat) : Nat :=
  4 + (w.property_manager.get_particle_size * max_tracers_per_cell) * 2 ^ w.dim

/-- The function `World::register_store_callback_function`: the size it
registers with the triangulation, if it registers the callback. -/
def World.register_store_callback_function {Pt : Type} (w : World Pt) (others : List Nat) :
    Option Nat :=
  let max_tracers_per_cell := w.get_global_max_tracer_per_cell others
  if max_tracers_per_cell > 0 then some (w.transfer_size_per_cell max_tracers_per_cell)
  else none

/-- The bytes `store_tracers` writes into the buffer of a cell: the leading
`unsigned int` and the data behind it. -/
def CellData.bytes_written (d : CellData) : Nat := 4 + d.data.length

/-- The cells the mesh layer invokes the store callback on: a locally owned
active cell for the status PERSIST or REFINE, a parent with `2^dim` distinct
children that are locally owned active cells for the status COARSEN. -/
def StoreCallbackCell {Pt : Type} (w : World Pt) (cell : CellIterator) (status : CellStatus) :
    Prop :=
  match status with
  | CellStatus.CELL_COARSEN =>
    cell.children.Nodup ∧ cell.children.length = 2 ^ w.dim
      ∧ ∀ c ∈ cell.children, LocallyOwnedKey w.mesh c
  | _ => LocallyOwnedKey w.mesh cell.key

/-! ## Lemmas on the multimap -/

section multimap_lemmas
variable {κ α : Type}

theorem multimap_insert_perm (less : κ → κ → Bool) (kv : κ × α) (m : List (κ × α)) :
    (multimap_insert less kv m).Perm (kv :: m) := by
  induction m with
  | nil => exact List.Perm.refl _
  | cons x xs ih =>
    unfold multimap_insert
    split
    · exact List.Perm.refl _
    · exact (List.Perm.cons x ih).trans (List.Perm.swap kv x xs)

theorem multimap_insert_range_perm (less : κ → κ → Bool) (range m : List (κ × α)) :
    (multimap_insert_range less m range).Perm (m ++ range) := by
  unfold multimap_insert_range
  induction range generalizing m with
  | nil => simp
  | cons kv rest ih =>
    simp only [List.foldl_cons]
    refine (ih _).trans ?_
    refine (List.Perm.append_right rest (multimap_insert_perm less kv m)).trans ?_
    simpa using (@List.perm_middle _ kv m rest).symm

variable [DecidableEq κ]

theorem equal_range_perm {m m' : List (κ × α)} (h : m.Perm m') (k : κ) :
    (equal_range m k).Perm (equal_range m' k) :=
  (h.filter _).map _

theorem equal_range_append (m m' : List (κ × α)) (k : κ) :
    equal_range (m ++ m') k = equal_range m k ++ equal_range m' k := by
  simp [equal_range]

theorem equal_range_cons_self (k : κ) (a : α) (m : List (κ × α)) :
    equal_range ((k, a) :: m) k = a :: equal_range m k := by
  simp [equal_range]

theorem equal_range_cons_ne {k k' : κ} (h : k' ≠ k) (a : α) (m : List (κ × α)) :
    equal_range ((k', a) :: m) k = equal_range m k := by
  simp [equal_range, h]

theorem equal_range_erase_range_self (m : List (κ × α)) (k : κ) :
    equal_range (erase_range m k) k = [] := by
  simp [equal_range, erase_range, List.filter_filter]

theorem equal_range_erase_range_ne (m : List (κ × α)) {k k' : κ} (h : k ≠ k') :
    equal_range (erase_range m k) k' = equal_range m k' := by
  unfold equal_range erase_range
  rw [List.filter_filter]
  congr 1
  apply List.filter_congr
  intro e _
  by_cases he : e.1 = k'
  · have : e.1 ≠ k := fun h' => h (h'.symm.trans he)
    simp [he, this]
    exact fun h' => h h'.symm
  · simp [he]

theorem equal_range_map_mk (k : κ) (l : List α) :
    equal_range (l.map (fun a => (k, a))) k = l := by
  induction l with
  | nil => rfl
  | cons a l ih => simp only [List.map_cons, equal_range_cons_self, ih]

theorem equal_range_map_mk_ne {k k' : κ} (h : k' ≠ k) (l : List α) :
    equal_range (l.map (fun a => (k', a))) k = [] := by
  induction l with
  | nil => rfl
  | cons a l ih => simp only [List.map_cons, equal_range_cons_ne h, ih]

end multimap_lemmas

/-! ## Lemmas on the serializer -/

section serializer_lemmas
variable {Pt : Type}

theorem decode_encode_int (x : Int) : decode_int (encode_int x) = x := by
  unfold decode_int encode_int
  split <;> split <;> omega

theorem plane_format_round_trip : RoundTrip plane_format := by
  intro p rest
  obtain ⟨⟨x, y⟩, id, props⟩ := p
  simp [plane_format, decode_encode_int]

theorem load_entries_not_refine (mesh : Mesh Pt) (cell : CellIterator) (status : CellStatus)
    (hs : status ≠ CellStatus.CELL_REFINE) (ps : List (Particle Pt)) :
    (ps.map (load_entries mesh cell status)).flatten = ps.map (fun p => (cell.key, p)) := by
  induction ps with
  | nil => rfl
  | cons p ps ih =>
    cases status
    · simpa [load_entries] using ih
    · exact absurd rfl hs
    · simpa [load_entries] using ih

theorem load_into_children_perm (mesh : Mesh Pt) (p : Particle Pt) (children : List LevelInd)
    (particles : ParticleMap Pt) :
    (load_into_children mesh p children particles).Perm
      (particles ++ (children.filter (fun child => mesh.unit_cell_test child p.location)).map
        (fun child => (child, p))) := by
  induction children generalizing particles with
  | nil => simp [load_into_children]
  | cons child rest ih =>
    unfold load_into_children
    refine (ih _).trans ?_
    by_cases h : mesh.unit_cell_test child p.location = true
    · simp only [h, if_true, List.filter_cons_of_pos, List.map_cons]
      refine (List.Perm.append_right _ (multimap_insert_perm _ _ _)).trans ?_
      simpa using (@List.perm_middle _ (child, p) particles _).symm
    · simp [h]

theorem load_step_perm (mesh : Mesh Pt) (cell : CellIterator) (status : CellStatus)
    (p : Particle Pt) (particles : ParticleMap Pt) :
    (match status with
      | CellStatus.CELL_REFINE => load_into_children mesh p cell.children particles
      | _ => multimap_insert LevelInd.less (cell.key, p) particles).Perm
      (particles ++ load_entries mesh cell status p) := by
  cases status
  · simpa [load_entries] using
      (multimap_insert_perm LevelInd.less (cell.key, p) particles).trans
        (List.perm_append_singleton (cell.key, p) particles).symm
  · simpa [load_entries] using load_into_children_perm mesh p cell.children particles
  · simpa [load_entries] using
      (multimap_insert_perm LevelInd.less (cell.key, p) particles).trans
        (List.perm_append_singleton (cell.key, p) particles).symm

/-- The loop of `load_tracers` reads the first `n` records of a buffer that
starts with the records of `ps` and adds their entries to the store. -/
theorem load_loop_perm (mesh : Mesh Pt) (fmt : ParticleFormat Pt) (hfmt : RoundTrip fmt)
    (cell : CellIterator) (status : CellStatus) (n : Nat) (ps : List (Particle Pt))
    (rest : List Nat) (particles : ParticleMap Pt) (hn : n ≤ ps.length) :
    (load_loop mesh fmt cell status n (records fmt ps ++ rest) particles).Perm
      (particles ++ ((ps.take n).map (load_entries mesh cell status)).flatten) := by
  induction n generalizing ps particles with
  | zero => simp [load_loop]
  | succ n ih =>
    cases ps with
    | nil => simp at hn
    | cons p ps =>
      have hread : fmt.from_bytes (records fmt (p :: ps) ++ rest)
          = (p, records fmt ps ++ rest) := by
        simpa [records, List.append_assoc] using hfmt p (records fmt ps ++ rest)
      unfold load_loop
      simp only [hread]
      refine (ih ps _ (by simpa using hn)).trans ?_
      simp only [List.take_succ_cons, List.map_cons, List.flatten_cons]
      rw [← List.append_assoc]
      exact List.Perm.append_right _ (load_step_perm mesh cell status p particles)

theorem equal_range_map_child (q : Particle Pt) (k : LevelInd) (l : List LevelInd)
    (hl : l.Nodup) :
    equal_range (l.map (fun child => (child, q))) k = if k ∈ l then [q] else [] := by
  induction l with
  | nil => rfl
  | cons c l ih =>
    have hnd := List.nodup_cons.1 hl
    by_cases hck : c = k
    · subst hck
      rw [List.map_cons, equal_range_cons_self, ih hnd.2]
      simp [hnd.1]
    · rw [List.map_cons, equal_range_cons_ne hck, ih hnd.2]
      have : (k ∈ c :: l) ↔ k ∈ l := by
        simp only [List.mem_cons]
        exact ⟨fun h => h.resolve_left (fun h' => hck h'.symm), Or.inr⟩
      simp only [this]

theorem equal_range_load_entries_refine (mesh : Mesh Pt) (cell : CellIterator)
    (hnodup : cell.children.Nodup) (k : LevelInd) (q : Particle Pt) :
    equal_range (load_entries mesh cell CellStatus.CELL_REFINE q) k
      = if k ∈ cell.children ∧ mesh.unit_cell_test k q.location = true then [q] else [] := by
  show equal_range ((cell.children.filter
    (fun child => mesh.unit_cell_test child q.location)).map (fun child => (child, q))) k = _
  rw [equal_range_map_child q k _ (hnodup.filter _)]
  simp only [List.mem_filter]

theorem equal_range_flatten_load_entries_refine (mesh : Mesh Pt) (cell : CellIterator)
    (hnodup : cell.children.Nodup) (k : LevelInd) (hk : k ∈ cell.children)
    (ps : List (Particle Pt)) :
    equal_range ((ps.map (load_entries mesh cell CellStatus.CELL_REFINE)).flatten) k
      = ps.filter (fun q => mesh.unit_cell_test k q.location) := by
  induction ps with
  | nil => rfl
  | cons q ps ih =>
    rw [List.map_cons, List.flatten_cons, equal_range_append, ih,
      equal_range_load_entries_refine mesh cell hnodup]
    by_cases ht : mesh.unit_cell_test k q.location = true
    · simp [hk, ht]
    · simp [ht]

/-- What a child key holds after `load_tracers` with status REFINE on a payload
with the records of `ps`. -/
theorem load_refine_equal_range (w : World Pt) (cell : CellIterator)
    (hfmt : RoundTrip w.property_manager.format) (hnodup : cell.children.Nodup)
    (ps : List (Particle Pt)) (rest : List Nat) (k : LevelInd) (hk : k ∈ cell.children) :
    (equal_range
        (w.load_tracers cell CellStatus.CELL_REFINE
          { n_particles_in_cell := ps.length,
            data := records w.property_manager.format ps ++ rest }).particles k).Perm
      (equal_range w.particles k ++ ps.filter (fun q => w.mesh.unit_cell_test k q.location)) := by
  have h := load_loop_perm w.mesh w.property_manager.format hfmt cell CellStatus.CELL_REFINE
    ps.length ps rest w.particles (Nat.le_refl _)
  rw [List.take_length] at h
  have h2 := equal_range_perm h k
  rw [equal_range_append, equal_range_flatten_load_entries_refine _ _ hnodup k hk] at h2
  exact h2

theorem equal_range_erase_range_of_empty {κ α : Type} [DecidableEq κ] (m : List (κ × α))
    (k c : κ) (h : equal_range m c = []) : equal_range (erase_range m k) c = [] := by
  by_cases hkc : k = c
  · subst hkc
    exact equal_range_erase_range_self m k
  · rw [equal_range_erase_range_ne m hkc, h]

theorem eq_singleton_of_nodup {α : Type} (l : List α) (c : α) (hl : l.Nodup) (hc : c ∈ l)
    (hall : ∀ x ∈ l, x = c) : l = [c] := by
  cases l with
  | nil => simp at hc
  | cons a t =>
    have ha : a = c := hall a (List.mem_cons_self a t)
    subst ha
    cases t with
    | nil => rfl
    | cons b t =>
      have hb : b = a := hall b (List.mem_cons_of_mem _ (List.mem_cons_self b t))
      subst hb
      exact absurd (List.mem_cons_self b t) (List.nodup_cons.1 hl).1

theorem filter_accepting_children (mesh : Mesh Pt) (cell : CellIterator)
    (hnodup : cell.children.Nodup) (x : Pt) (h : AcceptedByOneChild mesh cell x) :
    (cell.children.filter (fun c => mesh.unit_cell_test c x)).length = 1 := by
  obtain ⟨c, hc, hacc, huniq⟩ := h
  rw [eq_singleton_of_nodup _ c (hnodup.filter _) (List.mem_filter.2 ⟨hc, hacc⟩)
    (fun y hy => huniq y (List.mem_filter.1 hy).1 (List.mem_filter.1 hy).2)]
  rfl

theorem sum_filter_lengths (mesh : Mesh Pt) (children : List LevelInd) (q : Particle Pt)
    (ps : List (Particle Pt)) :
    (children.map (fun c => ((q :: ps).filter
        (fun r => mesh.unit_cell_test c r.location)).length)).sum
      = (children.filter (fun c => mesh.unit_cell_test c q.location)).length
        + (children.map (fun c => (ps.filter
            (fun r => mesh.unit_cell_test c r.location)).length)).sum := by
  induction children with
  | nil => rfl
  | cons c cs ih =>
    simp only [List.map_cons, List.sum_cons, ih]
    by_cases ht : mesh.unit_cell_test c q.location = true
    · simp only [List.filter_cons, ht, if_true, List.length_cons]
      omega
    · simp only [List.filter_cons, ht, if_false, Bool.false_eq_true]
      omega

theorem sum_children_filter (mesh : Mesh Pt) (cell : CellIterator)
    (hnodup : cell.children.Nodup) (ps : List (Particle Pt))
    (h : ∀ p ∈ ps, AcceptedByOneChild mesh cell p.location) :
    (cell.children.map (fun c => (ps.filter
        (fun r => mesh.unit_cell_test c r.location)).length)).sum = ps.length := by
  induction ps with
  | nil => simp
  | cons q ps ih =>
    rw [sum_filter_lengths, ih (fun p hp => h p (List.mem_cons_of_mem _ hp)),
      filter_accepting_children mesh cell hnodup _ (h q (List.mem_cons_self q ps)),
      List.length_cons]
    omega

/-- What a child key holds after `store_tracers` and `load_tracers` with status
REFINE, when it held nothing before. -/
theorem store_then_load_refine_child (w : World Pt) (cell : CellIterator)
    (hfmt : RoundTrip w.property_manager.format) (hnodup : cell.children.Nodup)
    (c : LevelInd) (hc : c ∈ cell.children) (hempty : equal_range w.particles c = []) :
    (equal_range (w.store_then_load cell CellStatus.CELL_REFINE) c).Perm
      ((equal_range w.particles cell.key).filter
        (fun q => w.mesh.unit_cell_test c q.location)) := by
  have h := load_refine_equal_range (w.store_tracers cell CellStatus.CELL_REFINE).1 cell hfmt
    hnodup (equal_range w.particles cell.key) [] c hc
  have he : equal_range (w.store_tracers cell CellStatus.CELL_REFINE).1.particles c = [] :=
    equal_range_erase_range_of_empty w.particles cell.key c hempty
  rw [he, List.nil_append] at h
  simpa [World.store_then_load, World.store_tracers, records] using h

/-! ### The COARSEN branch of `store_tracers` -/

theorem records_append (fmt : ParticleFormat Pt) (l l' : List (Particle Pt)) :
    records fmt (l ++ l') = records fmt l ++ records fmt l' := by
  simp [records]

theorem stride_pick_append {α : Type} (factor : Nat) (l l' : List α) (start : Nat) :
    stride_pick factor (l ++ l') start
      = stride_pick factor l start ++ stride_pick factor l' (start + l.length) := by
  induction l generalizing start with
  | nil => simp [stride_pick]
  | cons a l ih =>
    have hlen : start + (a :: l).length = start + 1 + l.length := by
      simp only [List.length_cons]; omega
    rw [hlen, List.cons_append]
    by_cases hmod : start % factor = 0
    · simp only [stride_pick, hmod, if_true, ih, List.cons_append]
    · simp only [stride_pick, hmod, if_false, ih]

theorem written_particles_append (reduce_tracers : Bool) (factor : Nat)
    (l l' : List (Particle Pt)) (start : Nat) :
    written_particles reduce_tracers factor (l ++ l') start
      = written_particles reduce_tracers factor l start
        ++ written_particles reduce_tracers factor l' (start + l.length) := by
  unfold written_particles
  split
  · exact stride_pick_append factor l l' start
  · rfl

theorem write_child_eq (fmt : ParticleFormat Pt) (reduce_tracers : Bool) (factor : Nat)
    (ps : List (Particle Pt)) (start : Nat) (data : List Nat) :
    write_child fmt reduce_tracers factor ps start data
      = (start + ps.length,
         data ++ records fmt (written_particles reduce_tracers factor ps start)) := by
  induction ps generalizing start data with
  | nil => cases reduce_tracers <;> simp [write_child, written_particles, stride_pick, records]
  | cons p ps ih =>
    unfold write_child
    rw [ih]
    have hlen : start + 1 + ps.length = start + (p :: ps).length := by
      simp only [List.length_cons]; omega
    rw [hlen]
    cases reduce_tracers
    · simp [written_particles, records]
    · by_cases hmod : start % factor = 0
      · simp [written_particles, stride_pick, hmod, records]
      · simp [written_particles, stride_pick, hmod, records]

theorem children_stream_erase_range (particles : ParticleMap Pt) (child : LevelInd)
    (rest : List LevelInd) (h : child ∉ rest) :
    children_stream (erase_range particles child) rest = children_stream particles rest := by
  unfold children_stream
  congr 1
  apply List.map_congr_left
  intro c hc
  exact equal_range_erase_range_ne particles (fun hcc => h (hcc ▸ hc))

theorem store_children_eq (fmt : ParticleFormat Pt) (reduce_tracers : Bool) (factor : Nat)
    (children : List LevelInd) (hnodup : children.Nodup) (particles : ParticleMap Pt)
    (start : Nat) (data : List Nat) :
    store_children fmt reduce_tracers factor children particles start data
      = (erase_children particles children,
         data ++ records fmt
           (written_particles reduce_tracers factor (children_stream particles children)
             start)) := by
  induction children generalizing particles start data with
  | nil =>
    cases reduce_tracers <;>
      simp [store_children, erase_children, children_stream, written_particles, stride_pick,
        records]
  | cons child rest ih =>
    have hnd := List.nodup_cons.1 hnodup
    unfold store_children
    simp only [write_child_eq]
    rw [ih hnd.2, children_stream_erase_range particles child rest hnd.1]
    have hstream : children_stream particles (child :: rest)
        = equal_range particles child ++ children_stream particles rest := by
      simp [children_stream]
    rw [hstream, written_particles_append, records_append, List.append_assoc]
    rfl

theorem count_children_eq (particles : ParticleMap Pt) (children : List LevelInd) :
    count_children particles children = (children_stream particles children).length := by
  have h : ∀ (cs : List LevelInd) (n : Nat),
      cs.foldl (fun n child => n + multimap_count particles child) n
        = n + (children_stream particles cs).length := by
    intro cs
    induction cs with
    | nil => intro n; simp [children_stream]
    | cons c cs ih =>
      intro n
      simp only [List.foldl_cons, ih]
      simp [children_stream, multimap_count, Nat.add_assoc]
  simpa [count_children] using h children 0

theorem equal_range_erase_children (particles : ParticleMap Pt) (children : List LevelInd)
    (k : LevelInd) (h : equal_range particles k = []) :
    equal_range (erase_children particles children) k = [] := by
  unfold erase_children
  induction children generalizing particles with
  | nil => exact h
  | cons c cs ih =>
    exact ih _ (equal_range_erase_range_of_empty particles c k h)

/-! ### The stride filter on whole blocks -/

theorem stride_pick_shift {α : Type} (f : Nat) (l : List α) (s : Nat) :
    stride_pick f l (s + f) = stride_pick f l s := by
  induction l generalizing s with
  | nil => rfl
  | cons a l ih =>
    have h1 : (s + f) % f = s % f := Nat.add_mod_right s f
    have h2 : s + f + 1 = (s + 1) + f := by omega
    simp only [stride_pick, h1, h2, ih]

theorem stride_pick_no_hit {α : Type} (f : Nat) (c : List α) (s : Nat) (hpos : 0 < s % f)
    (hfit : s % f + c.length ≤ f) : stride_pick f c s = [] := by
  induction c generalizing s with
  | nil => rfl
  | cons a c ih =>
    simp only [List.length_cons] at hfit
    have hne : s % f ≠ 0 := by omega
    simp only [stride_pick, hne, if_false]
    rcases Nat.eq_zero_or_pos c.length with hz | hp
    · rw [List.length_eq_zero.1 hz]
      rfl
    · have h1f : 1 % f = 1 := Nat.mod_eq_of_lt (by omega)
      have hs1 : (s + 1) % f = s % f + 1 := by
        rw [Nat.add_mod, h1f]
        exact Nat.mod_eq_of_lt (by omega)
      exact ih (s + 1) (by omega) (by omega)

theorem stride_pick_block {α : Type} (f : Nat) (a : α) (c l : List α)
    (hc : c.length + 1 = f) :
    stride_pick f (a :: c ++ l) 0 = a :: stride_pick f l 0 := by
  have hf : 0 < f := by omega
  have h0 : 0 % f = 0 := Nat.zero_mod f
  rw [List.cons_append, stride_pick]
  simp only [h0, if_true, Nat.zero_add]
  rw [stride_pick_append]
  rcases Nat.eq_zero_or_pos c.length with hz | hp
  · have hc0 : c = [] := List.length_eq_zero.1 hz
    subst hc0
    have hf1 : f = 1 := by simpa using hc.symm
    subst hf1
    simpa [stride_pick] using stride_pick_shift 1 l 0
  · have h1f : 1 % f = 1 := Nat.mod_eq_of_lt (by omega)
    rw [stride_pick_no_hit f c 1 (by omega) (by omega), List.nil_append]
    have : 1 + c.length = 0 + f := by omega
    rw [this, stride_pick_shift]

theorem strided_positions_block {α : Type} (f : Nat) (q : Nat) (a : α) (c l : List α)
    (hc : c.length + 1 = f) (hl : l.length = q * f) :
    strided_positions (a :: c ++ l) f = a :: strided_positions l f := by
  have hf : 0 < f := by omega
  have hlen : (a :: c ++ l).length = (q + 1) * f := by
    simp only [List.cons_append, List.length_cons, List.length_append, hl, Nat.add_mul]
    omega
  unfold strided_positions
  rw [hlen, hl, Nat.mul_div_cancel _ hf, Nat.mul_div_cancel _ hf, List.range_succ_eq_map,
    List.filterMap_cons]
  simp only [Nat.zero_mul, List.cons_append, List.getElem?_cons_zero, List.filterMap_map]
  congr 1
  apply List.filterMap_congr
  intro j _
  have hidx : (j + 1) * f = (c.length + 1) + j * f := by rw [Nat.add_mul, hc]; omega
  show (a :: (c ++ l))[(j + 1) * f]? = l[j * f]?
  rw [hidx, ← List.getElem?_drop]
  have hdrop : List.drop (c.length + 1) (a :: (c ++ l)) = l := by
    simp
  rw [hdrop]

/-- On a stream made of whole blocks the stride filter keeps the elements at the
positions `0, f, 2 f, ...`. -/
theorem stride_pick_eq_strided_positions {α : Type} (f : Nat) (hf : 0 < f) (q : Nat)
    (l : List α) (hl : l.length = q * f) :
    stride_pick f l 0 = strided_positions l f := by
  induction q generalizing l with
  | zero =>
    have : l = [] := List.length_eq_zero.1 (by simpa using hl)
    subst this
    simp [stride_pick, strided_positions]
  | succ q ih =>
    have hlen : f ≤ l.length := by rw [hl, Nat.add_mul]; omega
    cases l with
    | nil => simp at hlen; omega
    | cons a t =>
      have htl : t.length + 1 = (q + 1) * f := by simpa using hl
      have hsplit : a :: t = a :: t.take (f - 1) ++ t.drop (f - 1) := by
        simp [List.take_append_drop]
      have hc : (t.take (f - 1)).length + 1 = f := by
        rw [List.length_take, Nat.min_eq_left (by rw [Nat.add_mul] at htl; omega)]
        omega
      have hd : (t.drop (f - 1)).length = q * f := by
        rw [List.length_drop]
        rw [Nat.add_mul] at htl
        omega
      rw [hsplit, stride_pick_block f a _ _ hc, strided_positions_block f q a _ _ hc hd,
        ih _ hd]

theorem strided_positions_length {α : Type} (f : Nat) (hf : 0 < f) (q : Nat)
    (l : List α) (hl : l.length = q * f) : (strided_positions l f).length = q := by
  induction q generalizing l with
  | zero =>
    have : l = [] := List.length_eq_zero.1 (by simpa using hl)
    subst this
    simp [strided_positions]
  | succ q ih =>
    cases l with
    | nil =>
      have : (q + 1) * f = 0 := by simpa using hl.symm
      rw [Nat.add_mul] at this
      omega
    | cons a t =>
      have htl : t.length + 1 = (q + 1) * f := by simpa using hl
      have hsplit : a :: t = a :: t.take (f - 1) ++ t.drop (f - 1) := by
        simp [List.take_append_drop]
      have hc : (t.take (f - 1)).length + 1 = f := by
        rw [List.length_take, Nat.min_eq_left (by rw [Nat.add_mul] at htl; omega)]
        omega
      have hd : (t.drop (f - 1)).length = q * f := by
        rw [List.length_drop]
        rw [Nat.add_mul] at htl
        omega
      rw [hsplit, strided_positions_block f q a _ _ hc hd, List.length_cons, ih _ hd]

theorem coarsen_factor_eq_pow (dim : Nat) (hdim : dim = 2 ∨ dim = 3) :
    coarsen_factor dim = 2 ^ dim := by
  rcases hdim with h | h <;> subst h <;> decide

/-- The store after `store_tracers` and `load_tracers` with status COARSEN, when
the count written at the head of the buffer does not exceed the number of
records behind it: the children are erased and the parent receives the first
records, as many as the count says. -/
theorem store_then_load_coarsen (w : World Pt) (cell : CellIterator)
    (hfmt : RoundTrip w.property_manager.format) (hnodup : cell.children.Nodup)
    (hle : (w.store_tracers cell CellStatus.CELL_COARSEN).2.n_particles_in_cell
      ≤ (written_particles
          (decide (w.max_particles_per_cell > 0)
            && decide (count_children w.particles cell.children > w.max_particles_per_cell))
          (coarsen_factor w.dim) (children_stream w.particles cell.children) 0).length) :
    (w.store_then_load cell CellStatus.CELL_COARSEN).Perm
      (erase_children w.particles cell.children
        ++ ((written_particles
              (decide (w.max_particles_per_cell > 0)
                && decide (count_children w.particles cell.children
                    > w.max_particles_per_cell))
              (coarsen_factor w.dim) (children_stream w.particles cell.children) 0).take
            (w.store_tracers cell CellStatus.CELL_COARSEN).2.n_particles_in_cell).map
          (fun p => (cell.key, p))) := by
  have h := load_loop_perm w.mesh w.property_manager.format hfmt cell CellStatus.CELL_COARSEN
    (w.store_tracers cell CellStatus.CELL_COARSEN).2.n_particles_in_cell _ []
    (erase_children w.particles cell.children) hle
  rw [load_entries_not_refine _ _ _ (by decide)] at h
  refine List.Perm.trans (List.Perm.of_eq ?_) h
  simp only [World.store_then_load, World.load_tracers, World.store_tracers,
    store_children_eq _ _ _ _ hnodup, List.nil_append, List.append_nil]

end serializer_lemmas

/-! ## Claims on the refinement serializer -/

section serializer_claims
variable {Pt : Type}

/-- C1. PERSIST round trip: under the round trip law of the particle record,
`store_tracers` with status PERSIST on a cell followed by `load_tracers` with
status PERSIST on the buffer produced leaves under the key of the cell a multiset
of particles equal to the one it held before, and the count at the head of the
buffer is the size of that multiset. -/
theorem persist_round_trip (w : World Pt) (cell : CellIterator)
    (hfmt : RoundTrip w.property_manager.format) :
    (equal_range
        ((w.store_tracers cell CellStatus.CELL_PERSIST).1.load_tracers cell
          CellStatus.CELL_PERSIST (w.store_tracers cell CellStatus.CELL_PERSIST).2).particles
        cell.key).Perm (equal_range w.particles cell.key)
    ∧ (w.store_tracers cell CellStatus.CELL_PERSIST).2.n_particles_in_cell
        = (equal_range w.particles cell.key).length := by
  refine ⟨?_, rfl⟩
  have h := load_loop_perm w.mesh w.property_manager.format hfmt cell CellStatus.CELL_PERSIST
    (equal_range w.particles cell.key).length (equal_range w.particles cell.key) []
    (erase_range w.particles cell.key) (Nat.le_refl _)
  have h2 := equal_range_perm h cell.key
  simp only [World.load_tracers, World.store_tracers, records, List.append_nil] at h2 ⊢
  refine h2.trans ?_
  rw [equal_range_append, equal_range_erase_range_self, List.take_length, List.nil_append,
    load_entries_not_refine _ _ _ (by decide), equal_range_map_mk]

/-- Witness of C1: scenario S1, one particle at `(0.25, 0.75)` in a single unit
square cell. -/
theorem persist_round_trip_witness :
    RoundTrip world_S1.property_manager.format
    ∧ ((equal_range
        ((world_S1.store_tracers cell_S1 CellStatus.CELL_PERSIST).1.load_tracers cell_S1
          CellStatus.CELL_PERSIST
          (world_S1.store_tracers cell_S1 CellStatus.CELL_PERSIST).2).particles
        cell_S1.key).Perm (equal_range world_S1.particles cell_S1.key)
      ∧ (world_S1.store_tracers cell_S1 CellStatus.CELL_PERSIST).2.n_particles_in_cell
        = (equal_range world_S1.particles cell_S1.key).length) :=
  ⟨plane_format_round_trip, persist_round_trip world_S1 cell_S1 plane_format_round_trip⟩

/-- C2. REFINE dispersal of a single particle: when the unit cell test of exactly
one child `c` of the refined cell accepts the location of a particle `p` of the
payload, `load_tracers` with status REFINE inserts every occurrence of `p` in the
payload exactly once under the key of `c` and never under the key of another
child. -/
theorem refine_dispersal [DecidableEq Pt] (w : World Pt) (cell : CellIterator)
    (ps : List (Particle Pt)) (rest : List Nat) (p : Particle Pt) (c : LevelInd)
    (hfmt : RoundTrip w.property_manager.format)
    (hnodup : cell.children.Nodup)
    (hp : p ∈ ps)
    (hc : c ∈ cell.children)
    (haccept : w.mesh.unit_cell_test c p.location = true)
    (hunique : ∀ c' ∈ cell.children, w.mesh.unit_cell_test c' p.location = true → c' = c) :
    List.count p
        (equal_range
          (w.load_tracers cell CellStatus.CELL_REFINE
            { n_particles_in_cell := ps.length,
              data := records w.property_manager.format ps ++ rest }).particles c)
      = List.count p (equal_range w.particles c) + List.count p ps
    ∧ 0 < List.count p ps
    ∧ ∀ c' ∈ cell.children, c' ≠ c →
        List.count p
          (equal_range
            (w.load_tracers cell CellStatus.CELL_REFINE
              { n_particles_in_cell := ps.length,
                data := records w.property_manager.format ps ++ rest }).particles c')
        = List.count p (equal_range w.particles c') := by
  refine ⟨?_, List.count_pos_iff.2 hp, ?_⟩
  · rw [(load_refine_equal_range w cell hfmt hnodup ps rest c hc).count_eq, List.count_append,
      List.count_filter (p := fun q : Particle Pt => w.mesh.unit_cell_test c q.location)
        (a := p) (l := ps) haccept]
  · intro c' hc' hne
    rw [(load_refine_equal_range w cell hfmt hnodup ps rest c' hc').count_eq, List.count_append]
    have : p ∉ ps.filter (fun q => w.mesh.unit_cell_test c' q.location) := by
      intro hmem
      exact hne (hunique c' hc' (List.mem_filter.1 hmem).2)
    rw [List.count_eq_zero.2 this, Nat.add_zero]

/-- Witness of C2: scenario S2.  The four particles of the parent, stored and
loaded with status REFINE, end up one per child; the theorem is applied to the
particle at `(0.25, 0.25)` and the child `(1,0)`. -/
theorem refine_dispersal_witness :
    ((world_S2.store_tracers cell_S2 CellStatus.CELL_REFINE).1.load_tracers cell_S2
        CellStatus.CELL_REFINE (world_S2.store_tracers cell_S2 CellStatus.CELL_REFINE).2).particles
      = [((1, 0), particle_at 25 25 1), ((1, 1), particle_at 75 25 2),
         ((1, 2), particle_at 25 75 3), ((1, 3), particle_at 75 75 4)]
    ∧ (List.count (particle_at 25 25 1)
        (equal_range
          ((world_S2.store_tracers cell_S2 CellStatus.CELL_REFINE).1.load_tracers cell_S2
            CellStatus.CELL_REFINE
            { n_particles_in_cell := (equal_range world_S2.particles cell_S2.key).length,
              data := records plane_format (equal_range world_S2.particles cell_S2.key)
                ++ [] }).particles (1, 0))
        = List.count (particle_at 25 25 1)
            (equal_range (world_S2.store_tracers cell_S2 CellStatus.CELL_REFINE).1.particles (1, 0))
          + List.count (particle_at 25 25 1) (equal_range world_S2.particles cell_S2.key)
      ∧ 0 < List.count (particle_at 25 25 1) (equal_range world_S2.particles cell_S2.key)
      ∧ ∀ c' ∈ cell_S2.children, c' ≠ (1, 0) →
          List.count (particle_at 25 25 1)
            (equal_range
              ((world_S2.store_tracers cell_S2 CellStatus.CELL_REFINE).1.load_tracers cell_S2
                CellStatus.CELL_REFINE
                { n_particles_in_cell := (equal_range world_S2.particles cell_S2.key).length,
                  data := records plane_format (equal_range world_S2.particles cell_S2.key)
                    ++ [] }).particles c')
          = List.count (particle_at 25 25 1)
              (equal_range (world_S2.store_tracers cell_S2 CellStatus.CELL_REFINE).1.particles
                c')) :=
  ⟨by decide,
   refine_dispersal (world_S2.store_tracers cell_S2 CellStatus.CELL_REFINE).1 cell_S2
     (equal_range world_S2.particles cell_S2.key) [] (particle_at 25 25 1) (1, 0)
     plane_format_round_trip (by decide) (by decide) (by decide) (by decide) (by decide)⟩

/-- C3, as stated, fails: a particle on the face shared by two children is
accepted by the closed unit cell test of both, so the parent's single particle
is stored under two child keys and the children hold two particles. -/
theorem refine_conserves_counterexample : ¬ RefineConserves world_shared_face cell_S2 := by
  intro h
  exact absurd h.1 (by decide)

/-- C3, amended: when the child keys are distinct and hold nothing before, and
the location of every particle of the parent is accepted by the unit cell test
of exactly one child, then after `store_tracers` and `load_tracers` with status
REFINE the child keys hold in total as many particles as the parent held, and no
particle is under two different child keys. -/
theorem refine_conserves (w : World Pt) (cell : CellIterator)
    (hfmt : RoundTrip w.property_manager.format)
    (hnodup : cell.children.Nodup)
    (hempty : ∀ c ∈ cell.children, equal_range w.particles c = [])
    (hone : ∀ p ∈ equal_range w.particles cell.key,
      AcceptedByOneChild w.mesh cell p.location) :
    RefineConserves w cell := by
  constructor
  · have hcount : ∀ c ∈ cell.children,
        multimap_count (w.store_then_load cell CellStatus.CELL_REFINE) c
          = ((equal_range w.particles cell.key).filter
              (fun q => w.mesh.unit_cell_test c q.location)).length := fun c hc =>
      (store_then_load_refine_child w cell hfmt hnodup c hc (hempty c hc)).length_eq
    rw [List.map_congr_left hcount, sum_children_filter w.mesh cell hnodup _ hone]
    rfl
  · intro c hc c' hc' p hp hp'
    have h1 := List.mem_filter.1
      ((store_then_load_refine_child w cell hfmt hnodup c hc (hempty c hc)).mem_iff.1 hp)
    have h2 := List.mem_filter.1
      ((store_then_load_refine_child w cell hfmt hnodup c' hc' (hempty c' hc')).mem_iff.1 hp')
    obtain ⟨c0, _, _, huniq⟩ := hone p h1.1
    rw [huniq c hc h1.2, huniq c' hc' h2.2]

/-- Witness of the amended C3: scenario S2, four particles in the middle of the
four quadrants. -/
theorem refine_conserves_witness :
    RoundTrip world_S2.property_manager.format
    ∧ cell_S2.children.Nodup
    ∧ (∀ c ∈ cell_S2.children, equal_range world_S2.particles c = [])
    ∧ (∀ p ∈ equal_range world_S2.particles cell_S2.key,
        AcceptedByOneChild world_S2.mesh cell_S2 p.location)
    ∧ RefineConserves world_S2 cell_S2 :=
  have hone : ∀ p ∈ equal_range world_S2.particles cell_S2.key,
      AcceptedByOneChild world_S2.mesh cell_S2 p.location := by
    intro p hp
    have hp' : p = particle_at 25 25 1 ∨ p = particle_at 75 25 2 ∨ p = particle_at 25 75 3
        ∨ p = particle_at 75 75 4 := by
      simpa [world_S2, refined_world, cell_S2, CellIterator.key, equal_range] using hp
    rcases hp' with h | h | h | h
    · subst h; exact ⟨(1, 0), by decide, by decide, by decide⟩
    · subst h; exact ⟨(1, 1), by decide, by decide, by decide⟩
    · subst h; exact ⟨(1, 2), by decide, by decide, by decide⟩
    · subst h; exact ⟨(1, 3), by decide, by decide, by decide⟩
  ⟨plane_format_round_trip, by decide, by decide, hone,
   refine_conserves world_S2 cell_S2 plane_format_round_trip (by decide) (by decide) hone⟩

/-- C5. COARSEN stride merge: when the children of a coarsening cell hold in
total `n` particles with `n > Nmax > 0` and `n` a multiple of `2^d`, then
`store_tracers` followed by `load_tracers` with status COARSEN leaves the parent
with exactly `n / 2^d` particles, the ones at the positions `0, 2^d, 2 * 2^d, ...`
of the stream of the children's particles in child order. -/
theorem coarsen_stride_merge (w : World Pt) (cell : CellIterator)
    (hfmt : RoundTrip w.property_manager.format)
    (hdim : w.dim = 2 ∨ w.dim = 3)
    (hnodup : cell.children.Nodup)
    (hparent : equal_range w.particles cell.key = [])
    (hcap : 0 < w.max_particles_per_cell)
    (hover : w.max_particles_per_cell < count_children w.particles cell.children)
    (hdvd : 2 ^ w.dim ∣ count_children w.particles cell.children) :
    (equal_range (w.store_then_load cell CellStatus.CELL_COARSEN) cell.key).Perm
        (strided_positions (children_stream w.particles cell.children) (2 ^ w.dim))
    ∧ multimap_count (w.store_then_load cell CellStatus.CELL_COARSEN) cell.key
        = count_children w.particles cell.children / 2 ^ w.dim := by
  obtain ⟨q, hq⟩ := hdvd
  have hf : 0 < 2 ^ w.dim := Nat.two_pow_pos w.dim
  have hcf := coarsen_factor_eq_pow w.dim hdim
  have hlen : (children_stream w.particles cell.children).length = q * 2 ^ w.dim := by
    rw [← count_children_eq, hq, Nat.mul_comm]
  have hreduce : (decide (w.max_particles_per_cell > 0)
      && decide (count_children w.particles cell.children > w.max_particles_per_cell))
      = true := by
    simp [hcap, hover]
  have hheader : (w.store_tracers cell CellStatus.CELL_COARSEN).2.n_particles_in_cell = q := by
    simp only [World.store_tracers, hreduce, if_true, hcf]
    rw [hq]
    exact Nat.mul_div_cancel_left q hf
  have hpicks : written_particles
      (decide (w.max_particles_per_cell > 0)
        && decide (count_children w.particles cell.children > w.max_particles_per_cell))
      (coarsen_factor w.dim) (children_stream w.particles cell.children) 0
      = strided_positions (children_stream w.particles cell.children) (2 ^ w.dim) := by
    rw [hreduce, hcf]
    exact stride_pick_eq_strided_positions _ hf q _ hlen
  have hplen := strided_positions_length _ hf q _ hlen
  have h := store_then_load_coarsen w cell hfmt hnodup (by rw [hheader, hpicks, hplen])
  rw [hheader, hpicks, ← hplen, List.take_length] at h
  have h2 := equal_range_perm h cell.key
  rw [equal_range_append, equal_range_erase_children _ _ _ hparent, List.nil_append,
    equal_range_map_mk] at h2
  refine ⟨h2, ?_⟩
  unfold multimap_count
  rw [h2.length_eq, hplen, hq]
  exact (Nat.mul_div_cancel_left q hf).symm

/-- Witness of C5: scenario S3, `d = 2`, four children with four particles each
and `Nmax = 4`; the parent receives the four particles at the positions 0, 4, 8
and 12 of the stream. -/
theorem coarsen_stride_merge_witness :
    world_S3.store_then_load cell_S2 CellStatus.CELL_COARSEN
      = [((0, 0), particle_at 25 25 1), ((0, 0), particle_at 75 25 5),
         ((0, 0), particle_at 25 75 9), ((0, 0), particle_at 75 75 13)]
    ∧ count_children world_S3.particles cell_S2.children = 16
    ∧ ((equal_range (world_S3.store_then_load cell_S2 CellStatus.CELL_COARSEN) cell_S2.key).Perm
        (strided_positions (children_stream world_S3.particles cell_S2.children)
          (2 ^ world_S3.dim))
      ∧ multimap_count (world_S3.store_then_load cell_S2 CellStatus.CELL_COARSEN) cell_S2.key
        = count_children world_S3.particles cell_S2.children / 2 ^ world_S3.dim) :=
  ⟨by decide, by decide,
   coarsen_stride_merge world_S3 cell_S2 plane_format_round_trip (by decide) (by decide)
     (by decide) (by decide) (by decide) (by decide)⟩

/-- C4, the failing input: four children holding five particles under a cap of
four (`d = 2`).  `store_tracers` with status COARSEN writes the count `5 / 4 = 1`
at the head of the buffer and the records of two particles, those at the stream
positions 0 and 4, behind it. -/
theorem coarsen_header_mismatch :
    count_children world_five.particles cell_S2.children = 5
    ∧ (world_five.store_tracers cell_S2 CellStatus.CELL_COARSEN).2
      = { n_particles_in_cell := 1,
          data := records plane_format [particle_at 25 25 1, particle_at 75 75 5] } := by
  decide

/-- C6, the failing input: four children holding five particles under a cap of
four (`d = 2`).  The cap triggers and after `store_tracers` and `load_tracers`
with status COARSEN the parent holds one particle, which is `5 / 4` rounded down,
not rounded up. -/
theorem coarsen_parent_count_rounds_down :
    world_five.max_particles_per_cell < count_children world_five.particles cell_S2.children
    ∧ world_five.store_then_load cell_S2 CellStatus.CELL_COARSEN
      = [((0, 0), particle_at 25 25 1)]
    ∧ multimap_count (world_five.store_then_load cell_S2 CellStatus.CELL_COARSEN) cell_S2.key
      = 1
    ∧ (count_children world_five.particles cell_S2.children + 2 ^ world_five.dim - 1)
        / 2 ^ world_five.dim = 2 := by
  decide

end serializer_claims

/-! ## Lemmas on the rebinning -/

section rebinning_lemmas
variable {Pt : Type}

/-- The three containers after the loop of `find_all_cells` over `l`. -/
theorem rebin_loop_spec (mesh : Mesh Pt) (l : List (LevelInd × Particle Pt))
    (acc : Rebinned Pt) :
    (rebin_loop mesh l acc).particles
        = acc.particles ++ l.filter (fun it => decide (classify mesh it = Outcome.kept))
    ∧ ((rebin_loop mesh l acc).moved_particles).Perm
        (acc.moved_particles ++ l.filterMap (relocated_entry mesh))
    ∧ ((rebin_loop mesh l acc).lost_particles).Perm
        (acc.lost_particles ++ l.filterMap (staged_entry mesh)) := by
  induction l generalizing acc with
  | nil => simp [rebin_loop]
  | cons it rest ih =>
    unfold rebin_loop
    by_cases hkeep : it.1 ≠ ((-1, -1) : LevelInd) ∧ mesh.unit_cell_test it.1 it.2.location = true
    · have hc : classify mesh it = Outcome.kept := by simp [classify, hkeep]
      rw [if_pos hkeep]
      obtain ⟨h1, h2, h3⟩ := ih { acc with particles := acc.particles ++ [it] }
      refine ⟨?_, ?_, ?_⟩
      · rw [h1]; simp [hc]
      · simpa [relocated_entry, hc] using h2
      · simpa [staged_entry, hc] using h3
    · rw [if_neg hkeep]
      cases hfind : mesh.find_active_cell_around_point it.2.location with
      | none =>
        have hc : classify mesh it = Outcome.discarded := by simp [classify, hkeep, hfind]
        obtain ⟨h1, h2, h3⟩ := ih acc
        refine ⟨?_, ?_, ?_⟩
        · rw [h1]; simp [hc]
        · simpa [relocated_entry, hc] using h2
        · simpa [staged_entry, hc] using h3
      | some cell =>
        by_cases hown : cell.is_locally_owned = true
        · have hc : classify mesh it = Outcome.relocated cell.key := by
            simp [classify, hkeep, hfind, hown]
          simp only [hown, if_true]
          obtain ⟨h1, h2, h3⟩ := ih { acc with moved_particles :=
            (multimap_insert LevelInd.less (cell.key, it.2) acc.moved_particles) }
          refine ⟨?_, ?_, ?_⟩
          · rw [h1]; simp [hc]
          · refine h2.trans ?_
            refine (List.Perm.append_right _ (multimap_insert_perm _ _ _)).trans ?_
            simpa [relocated_entry, hc] using
              (@List.perm_middle _ (cell.key, it.2) acc.moved_particles
                (rest.filterMap (relocated_entry mesh))).symm
          · simpa [staged_entry, hc] using h3
        · have hc : classify mesh it = Outcome.staged cell.subdomain_id := by
            simp [classify, hkeep, hfind, hown]
          simp only [hown, if_false, Bool.false_eq_true]
          obtain ⟨h1, h2, h3⟩ := ih { acc with lost_particles :=
            (multimap_insert subdomain_less (cell.subdomain_id, it.2) acc.lost_particles) }
          refine ⟨?_, ?_, ?_⟩
          · rw [h1]; simp [hc]
          · simpa [relocated_entry, hc] using h2
          · refine h3.trans ?_
            refine (List.Perm.append_right _ (multimap_insert_perm _ _ _)).trans ?_
            simpa [staged_entry, hc] using
              (@List.perm_middle _ (cell.subdomain_id, it.2) acc.lost_particles
                (rest.filterMap (staged_entry mesh))).symm

theorem stored_entry_interleave (mesh : Mesh Pt) (l : List (LevelInd × Particle Pt)) :
    (l.filter (fun it => decide (classify mesh it = Outcome.kept))
      ++ l.filterMap (relocated_entry mesh)).Perm (l.filterMap (stored_entry mesh)) := by
  induction l with
  | nil => simp
  | cons it rest ih =>
    cases hc : classify mesh it with
    | kept => simpa [stored_entry, relocated_entry, hc] using ih
    | discarded => simpa [stored_entry, relocated_entry, hc] using ih
    | staged sd => simpa [stored_entry, relocated_entry, hc] using ih
    | relocated cell =>
      have h := (@List.perm_middle _ (cell, it.2)
        (rest.filter (fun it => decide (classify mesh it = Outcome.kept)))
        (rest.filterMap (relocated_entry mesh))).trans (List.Perm.cons _ ih)
      simpa [stored_entry, relocated_entry, hc] using h

theorem outcome_counts (mesh : Mesh Pt) (l : List (LevelInd × Particle Pt)) :
    l.length = kept_count mesh l + relocated_count mesh l + staged_count mesh l
      + discarded_count mesh l := by
  unfold kept_count relocated_count staged_count discarded_count
  induction l with
  | nil => rfl
  | cons it rest ih =>
    cases hc : classify mesh it <;>
      simp [relocated_entry, staged_entry, hc, List.filter_cons] <;> omega

/-- The store and the migration buffer after the rebinning part of
`find_all_cells`. -/
theorem rebin_spec (w : World Pt) :
    (w.rebin.1.particles).Perm
        (w.particles.filter (fun it => decide (classify w.mesh it = Outcome.kept))
          ++ w.particles.filterMap (relocated_entry w.mesh))
    ∧ (w.rebin.2).Perm (w.particles.filterMap (staged_entry w.mesh)) := by
  obtain ⟨h1, h2, h3⟩ := rebin_loop_spec w.mesh w.particles
    { particles := [], moved_particles := [], lost_particles := [] }
  constructor
  · simp only [World.rebin, World.move_particles_back_in_mesh]
    refine (multimap_insert_range_perm _ _ _).trans ?_
    rw [h1]
    simpa using List.Perm.append_left _ h2
  · simpa [World.rebin] using h3

theorem mem_multimap_insert {κ α : Type} (less : κ → κ → Bool) (kv x : κ × α)
    (m : List (κ × α)) : x ∈ multimap_insert less kv m ↔ x = kv ∨ x ∈ m := by
  rw [(multimap_insert_perm less kv m).mem_iff, List.mem_cons]

/-- Where the entries of the store come from after the rebinning. -/
theorem rebin_mem (w : World Pt) (it : LevelInd × Particle Pt) (h : it ∈ w.rebin.1.particles) :
    (it ∈ w.particles ∧ it.1 ≠ ((-1, -1) : LevelInd)
        ∧ w.mesh.unit_cell_test it.1 it.2.location = true)
    ∨ ∃ cell, w.mesh.find_active_cell_around_point it.2.location = some cell
        ∧ cell.is_locally_owned = true ∧ it.1 = cell.key := by
  rcases List.mem_append.1 ((rebin_spec w).1.mem_iff.1 h) with hk | hr
  · left
    obtain ⟨hmem, hc⟩ := List.mem_filter.1 hk
    refine ⟨hmem, ?_⟩
    by_contra hnot
    have hc' : classify w.mesh it = Outcome.kept := by simpa using hc
    unfold classify at hc'
    rw [if_neg hnot] at hc'
    split at hc'
    · cases hc'
    · split at hc' <;> cases hc'
  · right
    obtain ⟨it0, _, h0⟩ := List.mem_filterMap.1 hr
    unfold relocated_entry classify at h0
    split at h0
    · rename_i cell hcl
      split at hcl
      · cases hcl
      · split at hcl
        · cases hcl
        · rename_i c hfind
          split at hcl
          · rename_i hown
            have hkey : c.key = cell := by
              injection hcl
            cases h0
            exact ⟨c, hfind, hown, hkey.symm⟩
          · cases hcl
    · cases h0

/-- Where the entries of the store come from after the reinsertion loop. -/
theorem reinsert_loop_mem (w : World Pt) (n : Nat) (i : Nat) (cursor : List Nat)
    (particles : ParticleMap Pt) (it : LevelInd × Particle Pt)
    (h : it ∈ (reinsert_loop w i n cursor particles).1) :
    it ∈ particles
    ∨ ∃ cell, w.mesh.find_active_cell_around_point it.2.location = some cell
        ∧ cell.is_locally_owned = true ∧ it.1 = cell.key := by
  induction n generalizing i cursor particles with
  | zero => exact Or.inl (by simpa [reinsert_loop] using h)
  | succ n ih =>
    unfold reinsert_loop at h
    simp only at h
    split at h
    · exact ih _ _ _ h
    · rename_i cell hfind
      split at h
      · rename_i hown
        split at h
        · rcases ih _ _ _ h with hin | hex
          · rcases (mem_multimap_insert _ _ _ _).1 hin with heq | hold
            · right
              subst heq
              exact ⟨cell, hfind, hown, rfl⟩
            · exact Or.inl hold
          · exact Or.inr hex
        · exact ih _ _ _ h
      · exact ih _ _ _ h

theorem two_rank_mesh_find_active (rank : Nat) (x : Centi) (c : ActiveCell)
    (h : (two_rank_mesh rank).find_active_cell_around_point x = some c) :
    c ∈ (two_rank_mesh rank).active_cells := by
  simp only [two_rank_mesh] at h ⊢
  split at h
  · injection h with h
    subst h
    split <;> simp
  · cases h

theorem two_rank_mesh_find_accepts (rank : Nat) (x : Centi) (c : ActiveCell)
    (h : (two_rank_mesh rank).find_active_cell_around_point x = some c) :
    (two_rank_mesh rank).unit_cell_test c.key x = true := by
  simp only [two_rank_mesh] at h
  split at h
  · rename_i hx
    injection h with h
    subst h
    by_cases hlt : x.1 < 50
    · simp only [hlt, if_true, Mesh.unit_cell_test, two_rank_mesh, left_cell, ActiveCell.key]
      simp only [if_true, Bool.and_eq_true, decide_eq_true_eq]
      omega
    · simp only [hlt, if_false, Mesh.unit_cell_test, two_rank_mesh, right_cell, ActiveCell.key]
      have hne : ((0, 1) : LevelInd) ≠ (0, 0) := by decide
      simp only [hne, if_false, if_true, Bool.and_eq_true, decide_eq_true_eq]
      omega
  · cases h

end rebinning_lemmas

/-! ## Claims on the rebinning -/

section rebinning_claims
variable {Pt : Type}

/-- C7. Rebinning classification: every entry of the store has exactly one of the
four outcomes of `classify`, decided by its key, its location and the mesh.  After
the rebinning of `find_all_cells` the store holds the kept entries under their
old key and the relocated ones under the key of the locally owned cell found,
the migration buffer holds the staged ones under the subdomain id of the cell
found, the discarded ones are nowhere, and
`size_before = kept + relocated + staged + discarded`. -/
theorem rebin_classification (w : World Pt) :
    (w.rebin.1.particles).Perm (w.particles.filterMap (stored_entry w.mesh))
    ∧ (w.rebin.2).Perm (w.particles.filterMap (staged_entry w.mesh))
    ∧ w.rebin.1.particles.length = kept_count w.mesh w.particles
        + relocated_count w.mesh w.particles
    ∧ w.rebin.2.length = staged_count w.mesh w.particles
    ∧ w.particles.length = kept_count w.mesh w.particles + relocated_count w.mesh w.particles
        + staged_count w.mesh w.particles + discarded_count w.mesh w.particles := by
  obtain ⟨h1, h2⟩ := rebin_spec w
  refine ⟨h1.trans (stored_entry_interleave w.mesh w.particles), h2, ?_, ?_,
    outcome_counts w.mesh w.particles⟩
  · rw [h1.length_eq, List.length_append]
    rfl
  · rw [h2.length_eq]
    rfl

/-- C8. Local locality: when the keys of the store are locally owned cells or
the sentinel `(-1,-1)`, the cell lookup returns active cells of the mesh whose
unit cell test accepts the point looked up, and no cell has the sentinel as its
key, then after `find_all_cells` has completed every entry of the store has a
key that refers to a locally owned cell, is not the sentinel, and passes the unit
cell test of its cell. -/
theorem local_locality (w w' : World Pt) (n_mpi_processes : Nat) (num_recv_data : List Nat)
    (recv_data : List Nat)
    (hstart : ∀ it ∈ w.particles,
      it.1 = ((-1, -1) : LevelInd) ∨ LocallyOwnedKey w.mesh it.1)
    (hactive : ∀ x c, w.mesh.find_active_cell_around_point x = some c →
      c ∈ w.mesh.active_cells)
    (haccept : ∀ x c, w.mesh.find_active_cell_around_point x = some c →
      w.mesh.unit_cell_test c.key x = true)
    (hsentinel : ∀ c ∈ w.mesh.active_cells, c.key ≠ ((-1, -1) : LevelInd))
    (hdone : w.find_all_cells n_mpi_processes num_recv_data recv_data = some w') :
    ∀ it ∈ w'.particles,
      LocallyOwnedKey w.mesh it.1 ∧ it.1 ≠ ((-1, -1) : LevelInd)
        ∧ w.mesh.unit_cell_test it.1 it.2.location = true := by
  have hfound : ∀ it : LevelInd × Particle Pt,
      (∃ cell, w.mesh.find_active_cell_around_point it.2.location = some cell
        ∧ cell.is_locally_owned = true ∧ it.1 = cell.key) →
      LocallyOwnedKey w.mesh it.1 ∧ it.1 ≠ ((-1, -1) : LevelInd)
        ∧ w.mesh.unit_cell_test it.1 it.2.location = true := by
    rintro it ⟨cell, hfind, hown, hkey⟩
    rw [hkey]
    exact ⟨⟨cell, hactive _ _ hfind, rfl, hown⟩, hsentinel cell (hactive _ _ hfind),
      haccept _ _ hfind⟩
  have hrebin : ∀ it ∈ w.rebin.1.particles,
      LocallyOwnedKey w.mesh it.1 ∧ it.1 ≠ ((-1, -1) : LevelInd)
        ∧ w.mesh.unit_cell_test it.1 it.2.location = true := by
    intro it hit
    rcases rebin_mem w it hit with ⟨hmem, hne, htest⟩ | hex
    · exact ⟨(hstart it hmem).resolve_left hne, hne, htest⟩
    · exact hfound it hex
  unfold World.find_all_cells at hdone
  simp only at hdone
  split at hdone
  · unfold World.send_recv_particles at hdone
    simp only at hdone
    split at hdone
    · cases hdone
    · split at hdone
      · cases hdone
      · injection hdone with hw
        subst hw
        intro it hit
        rcases reinsert_loop_mem w.rebin.1 _ _ _ _ it hit with hin | hex
        · exact hrebin it hin
        · exact hfound it hex
  · injection hdone with hw
    subst hw
    exact hrebin

/-- Witness of C8: process 1 of the split unit square with an unlocated
particle, a particle in place, a particle that left for process 0 and one
arrival. -/
theorem local_locality_witness :
    world_rebin_example.find_all_cells 2 [4] (records plane_format [particle_at 80 20 7])
      = some world_rebin_example_after
    ∧ ∀ it ∈ world_rebin_example_after.particles,
        LocallyOwnedKey world_rebin_example.mesh it.1 ∧ it.1 ≠ ((-1, -1) : LevelInd)
          ∧ world_rebin_example.mesh.unit_cell_test it.1 it.2.location = true :=
  ⟨rfl,
   local_locality world_rebin_example world_rebin_example_after 2 [4]
     (records plane_format [particle_at 80 20 7]) (by decide)
     (two_rank_mesh_find_active 1) (two_rank_mesh_find_accepts 1) (by decide) rfl⟩

/-- C9, the failing input: scenario S6 (`d = 2`, `Nmax = 8`, the destination cell
holds eight particles, eight arrivals with the indices 0 to 7 are located in it).
The arrival at index 0 is inserted, the cell then holds nine particles, the test
`particles.count(found_cell) == max_particles_per_cell` is false from then on and
every later arrival is inserted as well: the cell ends with sixteen particles. -/
theorem arrival_cap_only_at_equality :
    multimap_count world_S6.particles (0, 1) = 8
    ∧ world_S6.max_particles_per_cell = 8
    ∧ (world_S6.send_recv_particles [] [32] (records plane_format arrivals_S6)).map
        (fun w => w.particles)
      = some (under (0, 1) (particles_from 75 50 1 8 ++ arrivals_S6))
    ∧ (world_S6.send_recv_particles [] [32] (records plane_format arrivals_S6)).map
        (fun w => multimap_count w.particles (0, 1))
      = some 16 := by
  decide

end rebinning_claims

/-! ## Lemmas on the migration -/

section migration_lemmas
variable {Pt : Type}

/-- The loop of `find_neighbors` from a list of neighbours already marked. -/
theorem find_neighbors_loop (cells : List ActiveCell) (marked : List Nat)
    (hmarked : marked.Nodup) :
    (cells.foldl
        (fun neighbors cell =>
          if cell.is_ghost then
            (if neighbors.any (fun n => n == cell.subdomain_id) then neighbors
             else neighbors ++ [cell.subdomain_id])
          else neighbors)
        marked).Nodup
    ∧ ∀ x, x ∈ cells.foldl
        (fun neighbors cell =>
          if cell.is_ghost then
            (if neighbors.any (fun n => n == cell.subdomain_id) then neighbors
             else neighbors ++ [cell.subdomain_id])
          else neighbors)
        marked
      ↔ x ∈ marked ∨ ∃ c ∈ cells, c.is_ghost = true ∧ c.subdomain_id = x := by
  induction cells generalizing marked with
  | nil => exact ⟨hmarked, fun x => by simp⟩
  | cons c cs ih =>
    simp only [List.foldl_cons]
    by_cases hg : c.is_ghost = true
    · by_cases hany : marked.any (fun n => n == c.subdomain_id) = true
      · have hin : c.subdomain_id ∈ marked := by simpa using hany
        simp only [hg, hany, if_true]
        refine ⟨(ih marked hmarked).1, fun x => ?_⟩
        rw [(ih marked hmarked).2 x]
        constructor
        · rintro (h | ⟨c', hc', h⟩)
          · exact Or.inl h
          · exact Or.inr ⟨c', List.mem_cons_of_mem _ hc', h⟩
        · rintro (h | ⟨c', hc', hg', hx⟩)
          · exact Or.inl h
          · rcases List.mem_cons.1 hc' with heq | hmem
            · subst heq; subst hx; exact Or.inl hin
            · exact Or.inr ⟨c', hmem, hg', hx⟩
      · have hnin : c.subdomain_id ∉ marked := by simpa using hany
        have hnd : (marked ++ [c.subdomain_id]).Nodup := by
          rw [List.nodup_append]
          refine ⟨hmarked, List.nodup_singleton _, ?_⟩
          intro a ha hb
          rw [List.mem_singleton] at hb
          exact hnin (hb ▸ ha)
        simp only [hg, hany, if_true, if_false, Bool.false_eq_true]
        refine ⟨(ih _ hnd).1, fun x => ?_⟩
        rw [(ih _ hnd).2 x]
        constructor
        · rintro (h | ⟨c', hc', h⟩)
          · rcases List.mem_append.1 h with h | h
            · exact Or.inl h
            · rw [List.mem_singleton] at h
              exact Or.inr ⟨c, List.mem_cons_self _ _, hg, h.symm⟩
          · exact Or.inr ⟨c', List.mem_cons_of_mem _ hc', h⟩
        · rintro (h | ⟨c', hc', hg', hx⟩)
          · exact Or.inl (List.mem_append_left _ h)
          · rcases List.mem_cons.1 hc' with heq | hmem
            · subst heq; subst hx
              exact Or.inl (List.mem_append_right _ (List.mem_singleton_self _))
            · exact Or.inr ⟨c', hmem, hg', hx⟩
    · simp only [hg, if_false, Bool.false_eq_true]
      refine ⟨(ih marked hmarked).1, fun x => ?_⟩
      rw [(ih marked hmarked).2 x]
      constructor
      · rintro (h | ⟨c', hc', h⟩)
        · exact Or.inl h
        · exact Or.inr ⟨c', List.mem_cons_of_mem _ hc', h⟩
      · rintro (h | ⟨c', hc', hg', hx⟩)
        · exact Or.inl h
        · rcases List.mem_cons.1 hc' with heq | hmem
          · subst heq; exact absurd hg' hg
          · exact Or.inr ⟨c', hmem, hg', hx⟩

theorem find_neighbors_nodup (mesh : Mesh Pt) : (find_neighbors mesh).Nodup :=
  (find_neighbors_loop mesh.active_cells [] List.nodup_nil).1

theorem mem_find_neighbors (mesh : Mesh Pt) (x : Nat) :
    x ∈ find_neighbors mesh ↔ ∃ c ∈ mesh.active_cells, c.is_ghost = true ∧ c.subdomain_id = x := by
  have h := (find_neighbors_loop mesh.active_cells [] List.nodup_nil).2 x
  simpa [find_neighbors] using h

/-! ### Rebinning when every lookup succeeds -/

theorem rebin_config (w : World Pt) :
    w.rebin.1.mesh = w.mesh ∧ w.rebin.1.property_manager = w.property_manager
      ∧ w.rebin.1.integrator = w.integrator
      ∧ w.rebin.1.max_particles_per_cell = w.max_particles_per_cell
      ∧ w.rebin.1.dim = w.dim :=
  ⟨rfl, rfl, rfl, rfl, rfl⟩

/-! ### Packing -/

theorem wire_length (pm : Manager Pt) (integrator : Integrator) (ps : List (Particle Pt))
    (h : ∀ p ∈ ps, HasWireSize pm integrator p) :
    (wire pm.format integrator ps).length
      = ps.length * (pm.get_particle_size + integrator.data_length * 8) := by
  induction ps with
  | nil => simp [wire]
  | cons p ps ih =>
    have hp := h p (List.mem_cons_self p ps)
    have hrest := ih (fun q hq => h q (List.mem_cons_of_mem _ hq))
    have hcons : wire pm.format integrator (p :: ps)
        = (pm.format.write_data p ++ integrator.write_data p.id)
          ++ wire pm.format integrator ps := by
      simp [wire]
    rw [hcons, List.length_append, List.length_append, hrest, hp.1, hp.2, List.length_cons,
      Nat.add_mul, Nat.one_mul]
    omega

theorem write_range_eq (fmt : ParticleFormat Pt) (integrator : Integrator)
    (ps : List (Particle Pt)) (data : List Nat) :
    write_range fmt integrator ps data = data ++ wire fmt integrator ps := by
  induction ps generalizing data with
  | nil => simp [write_range, wire]
  | cons p ps ih =>
    unfold write_range
    rw [ih]
    simp [wire]

/-- The send vectors after the loop over the neighbours. -/
theorem pack_loop_spec (w : World Pt) (send_particles : LostMap Pt) (neighbors : List Nat)
    (acc : SendBuffers) :
    (pack_loop w send_particles neighbors acc).num_send_data
        = acc.num_send_data
          ++ neighbors.map (fun n => (equal_range send_particles n).length * w.particle_size)
    ∧ (pack_loop w send_particles neighbors acc).send_offsets
        = acc.send_offsets
          ++ (List.range neighbors.length).map (fun j => acc.total_send_data
              + ((neighbors.take j).map
                  (fun n => (equal_range send_particles n).length * w.particle_size)).sum)
    ∧ (pack_loop w send_particles neighbors acc).total_send_data
        = acc.total_send_data
          + (neighbors.map
              (fun n => (equal_range send_particles n).length * w.particle_size)).sum
    ∧ (pack_loop w send_particles neighbors acc).data
        = acc.data
          ++ (neighbors.map (fun n => wire w.property_manager.format w.integrator
                (equal_range send_particles n))).flatten := by
  induction neighbors generalizing acc with
  | nil => simp [pack_loop]
  | cons n rest ih =>
    unfold pack_loop
    obtain ⟨h1, h2, h3, h4⟩ := ih
      { num_send_data := acc.num_send_data
          ++ [(equal_range send_particles n).length * w.particle_size],
        send_offsets := acc.send_offsets ++ [acc.total_send_data],
        total_send_data := acc.total_send_data
          + (equal_range send_particles n).length * w.particle_size,
        data := write_range w.property_manager.format w.integrator
          (equal_range send_particles n) acc.data }
    refine ⟨?_, ?_, ?_, ?_⟩
    · rw [h1]; simp
    · rw [h2]
      simp only [List.length_cons, List.range_succ_eq_map, List.map_cons, List.map_map,
        List.take_zero, List.map_nil, List.sum_nil, Nat.add_zero, List.append_assoc,
        List.singleton_append]
      congr 2
      apply List.map_congr_left
      intro j _
      simp only [Function.comp, List.take_succ_cons, List.map_cons, List.sum_cons]
      omega
    · rw [h3]; simp only [List.map_cons, List.sum_cons]; omega
    · rw [h4, write_range_eq]; simp

theorem mem_equal_range {κ α : Type} [DecidableEq κ] (m : List (κ × α)) (k : κ) (a : α) :
    a ∈ equal_range m k ↔ (k, a) ∈ m := by
  unfold equal_range
  simp only [List.mem_map, List.mem_filter, decide_eq_true_eq]
  constructor
  · rintro ⟨e, ⟨he, hk⟩, ha⟩
    have : e = (k, a) := Prod.ext hk ha
    exact this ▸ he
  · intro h
    exact ⟨(k, a), ⟨h, rfl⟩, rfl⟩

theorem wire_equal_range_length (w : World Pt) (lost : LostMap Pt)
    (hsize : ∀ e ∈ lost, HasWireSize w.property_manager w.integrator e.2) (n : Nat) :
    (wire w.property_manager.format w.integrator (equal_range lost n)).length
      = (equal_range lost n).length * w.particle_size :=
  wire_length w.property_manager w.integrator _
    (fun p hp => hsize (n, p) ((mem_equal_range lost n p).1 hp))

theorem equal_range_partition {κ α : Type} [DecidableEq κ] (keys : List κ) (hkeys : keys.Nodup)
    (m : List (κ × α)) (hm : ∀ e ∈ m, e.1 ∈ keys) :
    ((keys.map (equal_range m)).flatten).Perm (m.map Prod.snd) := by
  induction keys generalizing m with
  | nil =>
    cases m with
    | nil => exact List.Perm.refl _
    | cons e m => exact absurd (hm e (List.mem_cons_self e m)) (List.not_mem_nil _)
  | cons k rest ih =>
    have hnd := List.nodup_cons.1 hkeys
    have hrest : ∀ e ∈ erase_range m k, e.1 ∈ rest := by
      intro e he
      obtain ⟨hmem, hne⟩ := List.mem_filter.1 he
      have hne' : e.1 ≠ k := by simpa using hne
      exact (List.mem_cons.1 (hm e hmem)).resolve_left hne'
    have hmap : rest.map (equal_range m) = rest.map (equal_range (erase_range m k)) := by
      apply List.map_congr_left
      intro n hn
      have hkn : k ≠ n := fun h => hnd.1 (by rw [h]; exact hn)
      exact (equal_range_erase_range_ne m hkn).symm
    rw [List.map_cons, List.flatten_cons, hmap]
    refine (List.Perm.append_left _ (ih hnd.2 _ hrest)).trans ?_
    have hsplit := (List.filter_append_perm (fun e : κ × α => decide (e.1 = k)) m).map Prod.snd
    rw [List.map_append] at hsplit
    exact hsplit

theorem equal_range_partition_length {κ α : Type} [DecidableEq κ] (keys : List κ)
    (hkeys : keys.Nodup) (m : List (κ × α)) (hm : ∀ e ∈ m, e.1 ∈ keys) :
    (keys.map (fun k => (equal_range m k).length)).sum = m.length := by
  have h := (equal_range_partition keys hkeys m hm).length_eq
  rw [List.length_flatten, List.map_map, List.length_map] at h
  exact h

/-! ### Reinsertion without a cap -/

end migration_lemmas

/-! ## Claims on the migration -/

section migration_claims
variable {Pt : Type}

/-- The neighbour lists of the strip of three processes are `[1]`, `[0, 2]` and
`[1]`. -/
theorem ranks_strip_neighbors :
    ranks_strip.map (fun w => find_neighbors w.mesh) = [[1], [0, 2], [1]] := by
  decide

/-- Process 0 of the strip of three processes sees the cell `(0,2)`, where the
particles of processes 1 and 2 are, as neither its own nor a ghost cell: its
lookup of their locations returns a cell with `artificial_subdomain_id`. -/
theorem ranks_strip_artificial :
    (strip_mesh_of 0).find_active_cell_around_point (particle_at 70 50 2).location
      = some { level := 0, index := 2, subdomain_id := artificial_subdomain_id,
               is_locally_owned := false, is_ghost := false }
    ∧ (strip_mesh_of 0).find_active_cell_around_point (particle_at 90 50 3).location
      = some { level := 0, index := 2, subdomain_id := artificial_subdomain_id,
               is_locally_owned := false, is_ghost := false } := by
  decide

end migration_claims

/-! ## Claims on the neighbour discovery -/

section neighbor_claims
variable {Pt : Type}

theorem filter_filter_not_mem (l marked : List Nat) (a : Nat) :
    (l.filter (fun x => !decide (x = a))).filter (fun x => !decide (x ∈ marked))
      = l.filter (fun x => !decide (x ∈ marked ++ [a])) := by
  rw [List.filter_filter]
  apply List.filter_congr
  intro x _
  by_cases h1 : x ∈ marked <;> by_cases h2 : x = a <;> simp [h1, h2]

/-- The loop of `find_neighbors` from a list of neighbours already marked appends
the first occurrences of the ghost cells' subdomain ids not yet marked. -/
theorem find_neighbors_loop_eq (cells : List ActiveCell) (marked : List Nat) :
    cells.foldl
        (fun neighbors cell =>
          if cell.is_ghost then
            (if neighbors.any (fun n => n == cell.subdomain_id) then neighbors
             else neighbors ++ [cell.subdomain_id])
          else neighbors)
        marked
      = marked ++ (first_occurrences
          ((cells.filter (fun c => c.is_ghost)).map (fun c => c.subdomain_id))).filter
            (fun x => !decide (x ∈ marked)) := by
  induction cells generalizing marked with
  | nil => simp [first_occurrences]
  | cons c cs ih =>
    simp only [List.foldl_cons]
    by_cases hg : c.is_ghost = true
    · by_cases hany : marked.any (fun n => n == c.subdomain_id) = true
      · have hin : c.subdomain_id ∈ marked := by simpa using hany
        simp only [hg, hany, if_true]
        rw [ih marked]
        simp only [List.filter_cons, hg, if_true, List.map_cons, first_occurrences, hin,
          decide_True, Bool.not_true, Bool.false_eq_true, if_false]
        congr 1
        rw [List.filter_filter]
        apply List.filter_congr
        intro x _
        by_cases h1 : x ∈ marked
        · simp [h1]
        · have h2 : x ≠ c.subdomain_id := fun h => h1 (h ▸ hin)
          simp [h1, h2]
      · have hnin : c.subdomain_id ∉ marked := by simpa using hany
        simp only [hg, hany, if_true, if_false, Bool.false_eq_true]
        rw [ih (marked ++ [c.subdomain_id])]
        simp only [List.filter_cons, hg, if_true, List.map_cons, first_occurrences, hnin,
          decide_False, Bool.not_false, List.append_assoc, List.singleton_append]
        rw [filter_filter_not_mem]
    · simp only [hg, if_false, Bool.false_eq_true]
      rw [ih marked]
      simp only [List.filter_cons, hg, if_false, Bool.false_eq_true]

/-- C16. `find_neighbors` returns exactly the subdomain ids of the ghost cells
among the active cells: every id returned is the subdomain id of a ghost cell,
the subdomain id of every ghost cell is returned, no id occurs twice, and the
ids come in the order of the first ghost cell of each subdomain in the
enumeration of the active cells. -/
theorem find_neighbors_exact (mesh : Mesh Pt) :
    (∀ x, x ∈ find_neighbors mesh
        ↔ ∃ c ∈ mesh.active_cells, c.is_ghost = true ∧ c.subdomain_id = x)
    ∧ (find_neighbors mesh).Nodup
    ∧ find_neighbors mesh = first_occurrences (ghost_subdomain_ids mesh) := by
  refine ⟨mem_find_neighbors mesh, find_neighbors_nodup mesh, ?_⟩
  have h := find_neighbors_loop_eq mesh.active_cells []
  simpa [find_neighbors, ghost_subdomain_ids] using h

end neighbor_claims

/-! ## Claims on the frame of the store callback -/

section frame_claims
variable {Pt : Type}

theorem store_children_particles (fmt : ParticleFormat Pt) (reduce_tracers : Bool)
    (factor : Nat) (children : List LevelInd) (particles : ParticleMap Pt) (start : Nat)
    (data : List Nat) :
    (store_children fmt reduce_tracers factor children particles start data).1
      = erase_children particles children := by
  induction children generalizing particles start data with
  | nil => rfl
  | cons child rest ih =>
    unfold store_children
    simp only [ih]
    rfl

theorem erase_children_eq_filter (particles : ParticleMap Pt) (children : List LevelInd) :
    erase_children particles children
      = particles.filter (fun e => !decide (e.1 ∈ children)) := by
  unfold erase_children
  induction children generalizing particles with
  | nil => simp
  | cons c cs ih =>
    rw [List.foldl_cons, ih]
    unfold erase_range
    rw [List.filter_filter]
    apply List.filter_congr
    intro e _
    by_cases h1 : e.1 = c <;> by_cases h2 : e.1 ∈ cs <;> simp [h1, h2]

theorem equal_range_filter_keys {κ α : Type} [DecidableEq κ] (m : List (κ × α))
    (keep : κ → Bool) (k : κ) :
    equal_range (m.filter (fun e => keep e.1)) k
      = if keep k = true then equal_range m k else [] := by
  unfold equal_range
  rw [List.filter_filter]
  by_cases hk : keep k = true
  · rw [if_pos hk]
    congr 1
    apply List.filter_congr
    intro e _
    by_cases he : e.1 = k
    · simp [he, hk]
    · simp [he]
  · rw [if_neg hk]
    have hnone : m.filter (fun e => decide (e.1 = k) && keep e.1) = [] := by
      apply List.filter_eq_nil_iff.2
      intro e _
      by_cases he : e.1 = k
      · simp [he, hk]
      · simp [he]
    rw [hnone]
    rfl

/-- C17. The store callback empties what it packs and nothing else.  With status
PERSIST or REFINE on a cell the store keeps exactly the entries under the other
keys, nothing stays under the key of the cell, and the buffer holds the count
and the records of all particles the cell had.  With status COARSEN on a parent
the store keeps exactly the entries under the keys that are not child keys, so
nothing stays under a child key, also of the particles left out by the
downsampling. -/
theorem store_tracers_frame (w : World Pt) (cell : CellIterator) :
    (∀ status, status ≠ CellStatus.CELL_COARSEN →
        (w.store_tracers cell status).1.particles
          = w.particles.filter (fun e => !decide (e.1 = cell.key))
        ∧ equal_range (w.store_tracers cell status).1.particles cell.key = []
        ∧ (∀ k, k ≠ cell.key →
            equal_range (w.store_tracers cell status).1.particles k
              = equal_range w.particles k)
        ∧ (w.store_tracers cell status).2
          = { n_particles_in_cell := (equal_range w.particles cell.key).length,
              data := records w.property_manager.format (equal_range w.particles cell.key) })
    ∧ (w.store_tracers cell CellStatus.CELL_COARSEN).1.particles
        = w.particles.filter (fun e => !decide (e.1 ∈ cell.children))
    ∧ (∀ c ∈ cell.children,
        equal_range (w.store_tracers cell CellStatus.CELL_COARSEN).1.particles c = [])
    ∧ (∀ k, k ∉ cell.children →
        equal_range (w.store_tracers cell CellStatus.CELL_COARSEN).1.particles k
          = equal_range w.particles k) := by
  have hcoarsen : (w.store_tracers cell CellStatus.CELL_COARSEN).1.particles
      = w.particles.filter (fun e => !decide (e.1 ∈ cell.children)) := by
    simp only [World.store_tracers, store_children_particles, erase_children_eq_filter]
  refine ⟨?_, hcoarsen, ?_, ?_⟩
  · intro status hs
    have hstore : (w.store_tracers cell status).1.particles = erase_range w.particles cell.key
        ∧ (w.store_tracers cell status).2
          = { n_particles_in_cell := (equal_range w.particles cell.key).length,
              data := records w.property_manager.format
                (equal_range w.particles cell.key) } := by
      cases status
      · exact ⟨rfl, rfl⟩
      · exact ⟨rfl, rfl⟩
      · exact absurd rfl hs
    refine ⟨hstore.1, ?_, ?_, hstore.2⟩
    · rw [hstore.1]
      exact equal_range_erase_range_self _ _
    · intro k hk
      rw [hstore.1]
      exact equal_range_erase_range_ne _ (fun h => hk h.symm)
  · intro c hc
    rw [hcoarsen, equal_range_filter_keys w.particles (fun k => !decide (k ∈ cell.children)) c]
    simp [hc]
  · intro k hk
    rw [hcoarsen, equal_range_filter_keys w.particles (fun k => !decide (k ∈ cell.children)) k]
    simp [hk]

end frame_claims

/-! ## Claims on the size exchange -/

section size_claims
variable {Pt : Type}

theorem getD_map_range (n : Nat) (g : Nat → Nat) (i : Nat) (hi : i < n) :
    ((List.range n).map g).getD i 0 = g i := by
  simp [List.getD_eq_getElem?_getD, hi]

/-- C13, as stated, fails: with an integrator payload of one double and one
particle staged for the neighbour 1, the byte count sent is `4 + 1 * 8 = 12`, not
`4 + 1 = 5`. -/
theorem size_exchange_counterexample :
    ¬ SizesWithDataLengthInBytes world_one_double [(1, particle_at 51 50 1)] := by
  unfold SizesWithDataLengthInBytes
  decide

/-- C13, amended: with
`particle_size = get_particle_size() + data_length() * sizeof(double)`, the byte
count sent to each neighbour, in discovery order, is the number of particles
staged for it times `particle_size`, and the send offset of a neighbour is the
sum of the byte counts of the neighbours before it, so that each segment starts
where the one before ends. -/
theorem size_exchange_spec (w : World Pt) (send_particles : LostMap Pt) :
    w.particle_size = w.property_manager.get_particle_size + w.integrator.data_length * 8
    ∧ (w.pack send_particles).num_send_data
        = (find_neighbors w.mesh).map
            (fun n => (equal_range send_particles n).length * w.particle_size)
    ∧ (w.pack send_particles).send_offsets.length = (find_neighbors w.mesh).length
    ∧ (∀ i, i < (find_neighbors w.mesh).length →
        (w.pack send_particles).send_offsets.getD i 0
          = ((w.pack send_particles).num_send_data.take i).sum)
    ∧ (∀ i, i + 1 < (find_neighbors w.mesh).length →
        (w.pack send_particles).send_offsets.getD (i + 1) 0
          = (w.pack send_particles).send_offsets.getD i 0
            + (w.pack send_particles).num_send_data.getD i 0)
    ∧ (w.pack send_particles).total_send_data
        = ((w.pack send_particles).num_send_data).sum := by
  obtain ⟨h1, h2, h3, _⟩ := pack_loop_spec w send_particles (find_neighbors w.mesh)
    { num_send_data := [], send_offsets := [], total_send_data := 0, data := [] }
  have hnum : (w.pack send_particles).num_send_data
      = (find_neighbors w.mesh).map
          (fun n => (equal_range send_particles n).length * w.particle_size) := by
    unfold World.pack
    rw [h1]
    rfl
  have hoff : ∀ i, i < (find_neighbors w.mesh).length →
      (w.pack send_particles).send_offsets.getD i 0
        = ((w.pack send_particles).num_send_data.take i).sum := by
    intro i hi
    rw [hnum]
    unfold World.pack
    rw [h2, List.nil_append, getD_map_range _ _ i hi, ← List.map_take]
    simp
  refine ⟨rfl, hnum, ?_, hoff, ?_, ?_⟩
  · unfold World.pack
    rw [h2]
    simp
  · intro i hi
    have hlen : i < (w.pack send_particles).num_send_data.length := by
      rw [hnum, List.length_map]
      omega
    rw [hoff (i + 1) hi, hoff i (by omega), List.sum_take_succ _ _ hlen,
      List.getD_eq_getElem _ _ hlen]
  · unfold World.pack
    rw [h3, h1]
    simp

end size_claims

/-! ## Claims on the framing -/

section framing_claims
variable {Pt : Type}

/-- C11, as stated, fails: a particle that moved into a cell that is neither
locally owned nor a ghost cell is staged under a subdomain id that is not in the
neighbour list, its record is not written, the write cursor stays short of the
end of the send buffer and `find_all_cells` ends in the failed check. -/
theorem pack_framing_counterexample :
    strip_world.rebin.2 = [(artificial_subdomain_id, particle_at 90 50 1)]
    ∧ find_neighbors strip_world.rebin.1.mesh = [1]
    ∧ ¬ PackFramed strip_world.rebin.1 strip_world.rebin.2
    ∧ (strip_world.find_all_cells 3 [0] []).isNone = true := by
  unfold PackFramed
  decide

/-- The particles the packing loop writes are the staged particles whose
subdomain id is in the list of keys. -/
theorem equal_range_sum_length {κ α : Type} [DecidableEq κ] (keys : List κ)
    (hkeys : keys.Nodup) (m : List (κ × α)) :
    (keys.map (fun k => (equal_range m k).length)).sum
      = (m.filter (fun e => decide (e.1 ∈ keys))).length := by
  rw [← equal_range_partition_length keys hkeys (m.filter (fun e => decide (e.1 ∈ keys)))
    (by
      intro e he
      simpa using (List.mem_filter.1 he).2)]
  congr 1
  apply List.map_congr_left
  intro k hk
  unfold equal_range
  rw [List.filter_filter]
  congr 2
  apply List.filter_congr
  intro e _
  by_cases h : e.1 = k
  · simp [h, hk]
  · simp [h]

/-- C11, amended: when the records of the staged particles have the announced
size, the bytes written by the packing loop, and the counter `total_send_data`,
are the sum over the neighbours of the particles staged for the neighbour times
`particle_size`; when moreover every staged particle is staged for a subdomain of the
neighbour list, the write cursor is at the end of the send buffer after the
loop; and when `particle_size` is positive and some staged particle is staged
for a subdomain that is not in the neighbour list, the cursor stays short of the
end of the send buffer and `send_recv_particles` fails in its check, whatever is
received. -/
theorem pack_framing (w : World Pt) (send_particles : LostMap Pt)
    (hsize : ∀ e ∈ send_particles, HasWireSize w.property_manager w.integrator e.2) :
    (w.pack send_particles).data.length
        = ((find_neighbors w.mesh).map
            (fun n => (equal_range send_particles n).length * w.particle_size)).sum
    ∧ (w.pack send_particles).total_send_data
        = ((find_neighbors w.mesh).map
            (fun n => (equal_range send_particles n).length * w.particle_size)).sum
    ∧ ((∀ e ∈ send_particles, e.1 ∈ find_neighbors w.mesh) → PackFramed w send_particles)
    ∧ (0 < w.particle_size → (∃ e ∈ send_particles, e.1 ∉ find_neighbors w.mesh) →
        (w.pack send_particles).data.length < send_particles.length * w.particle_size
        ∧ ¬ PackFramed w send_particles
        ∧ ∀ (num_recv_data recv_data : List Nat),
            w.send_recv_particles send_particles num_recv_data recv_data = none) := by
  obtain ⟨_, _, h3, h4⟩ := pack_loop_spec w send_particles (find_neighbors w.mesh)
    { num_send_data := [], send_offsets := [], total_send_data := 0, data := [] }
  have hlen : (w.pack send_particles).data.length
      = ((find_neighbors w.mesh).map
          (fun n => (equal_range send_particles n).length * w.particle_size)).sum := by
    unfold World.pack
    rw [h4, List.nil_append, List.length_flatten, List.map_map]
    congr 1
    apply List.map_congr_left
    intro n _
    exact wire_equal_range_length w send_particles hsize n
  refine ⟨hlen, ?_, ?_, ?_⟩
  · unfold World.pack
    rw [h3]
    simp
  · intro hkeys
    unfold PackFramed
    rw [hlen, List.sum_map_mul_right,
      equal_range_partition_length _ (find_neighbors_nodup w.mesh) send_particles hkeys]
  · intro hpos hex
    have hlt : (w.pack send_particles).data.length
        < send_particles.length * w.particle_size := by
      rw [hlen, List.sum_map_mul_right,
        equal_range_sum_length _ (find_neighbors_nodup w.mesh) send_particles]
      apply Nat.mul_lt_mul_of_pos_right _ hpos
      apply List.length_filter_lt_length_iff_exists.2
      obtain ⟨e, he, hne⟩ := hex
      exact ⟨e, he, by simpa using hne⟩
    refine ⟨hlt, ?_, ?_⟩
    · unfold PackFramed
      omega
    · intro num_recv_data recv_data
      unfold World.send_recv_particles
      simp only
      rw [if_pos (by omega)]

/-- Witness of the amended C11: process 1 of the split unit square stages one
particle for its neighbour 0 and the cursor ends at the end of the send buffer;
process 0 of the strip stages one particle for a subdomain that is not a
neighbour, and `send_recv_particles` fails. -/
theorem pack_framing_witness :
    world_rebin_example.rebin.2 = [(0, particle_at 20 50 3)]
    ∧ find_neighbors world_rebin_example.rebin.1.mesh = [0]
    ∧ PackFramed world_rebin_example.rebin.1 world_rebin_example.rebin.2
    ∧ (world_rebin_example.rebin.1.pack world_rebin_example.rebin.2).data.length
        = (world_rebin_example.rebin.1.pack world_rebin_example.rebin.2).total_send_data
    ∧ strip_world.rebin.1.send_recv_particles strip_world.rebin.2 [0] [] = none :=
  have hsize : ∀ e ∈ world_rebin_example.rebin.2,
      HasWireSize world_rebin_example.rebin.1.property_manager
        world_rebin_example.rebin.1.integrator e.2 := by
    intro e he
    have he1 : e = (0, particle_at 20 50 3) := by
      have hl : world_rebin_example.rebin.2 = [(0, particle_at 20 50 3)] := by decide
      rw [hl] at he
      simpa using he
    subst he1
    exact ⟨rfl, rfl⟩
  have hstrip : ∀ e ∈ strip_world.rebin.2,
      HasWireSize strip_world.rebin.1.property_manager strip_world.rebin.1.integrator e.2 := by
    intro e he
    have he1 : e = (artificial_subdomain_id, particle_at 90 50 1) := by
      have hl : strip_world.rebin.2 = [(artificial_subdomain_id, particle_at 90 50 1)] := by
        decide
      rw [hl] at he
      simpa using he
    subst he1
    exact ⟨rfl, rfl⟩
  ⟨by decide, by decide,
   (pack_framing world_rebin_example.rebin.1 world_rebin_example.rebin.2 hsize).2.2.1
     (by decide),
   (pack_framing world_rebin_example.rebin.1 world_rebin_example.rebin.2 hsize).1.trans
     (pack_framing world_rebin_example.rebin.1 world_rebin_example.rebin.2 hsize).2.1.symm,
   ((pack_framing strip_world.rebin.1 strip_world.rebin.2 hstrip).2.2.2 (by decide)
     ⟨(artificial_subdomain_id, particle_at 90 50 1), by decide, by decide⟩).2.2 [0] []⟩

end framing_claims

section unpack_claims
variable {Pt : Type}

/-- C12. Unpack framing: when reading a particle record advances the cursor by
`get_particle_size()` bytes and reading the integrator payload by
`data_length() * sizeof(double)` bytes, every iteration of the reinsertion loop
advances the read cursor by `particle_size` bytes, whatever happens to the
particle; and when every byte count received is a multiple of `particle_size`
the read cursor is at the end of the receive buffer after the loop. -/
theorem unpack_framing (w : World Pt) (num_recv_data : List Nat) (recv_data : List Nat)
    (hrecord : ∀ c, (w.property_manager.format.from_bytes c).2
      = c.drop w.property_manager.get_particle_size)
    (hpayload : ∀ c id, w.integrator.read_data c id = c.drop (w.integrator.data_length * 8))
    (hmultiple : ∀ n ∈ num_recv_data, w.particle_size ∣ n)
    (hbuffer : recv_data.length = num_recv_data.sum) :
    (∀ (n i : Nat) (cursor : List Nat) (particles : ParticleMap Pt),
        (reinsert_loop w i n cursor particles).2 = cursor.drop (n * w.particle_size))
    ∧ (reinsert_loop w 0 (num_recv_data.sum / w.particle_size) recv_data w.particles).2
        = [] := by
  have hstep : ∀ (n i : Nat) (cursor : List Nat) (particles : ParticleMap Pt),
      (reinsert_loop w i n cursor particles).2 = cursor.drop (n * w.particle_size) := by
    intro n
    induction n with
    | zero => intro i cursor particles; simp [reinsert_loop]
    | succ n ih =>
      intro i cursor particles
      have hnext : ∀ id, (w.integrator.read_data
          (w.property_manager.format.from_bytes cursor).2 id).drop (n * w.particle_size)
          = cursor.drop ((n + 1) * w.particle_size) := by
        intro id
        rw [hpayload, hrecord, List.drop_drop, List.drop_drop]
        congr 1
        unfold World.particle_size
        rw [Nat.add_mul, Nat.one_mul]
        omega
      unfold reinsert_loop
      simp only
      split
      · rw [ih, hnext]
      · split
        · split
          · rw [ih, hnext]
          · rw [ih, hnext]
        · rw [ih, hnext]
  refine ⟨hstep, ?_⟩
  rw [hstep, Nat.div_mul_cancel (List.dvd_sum hmultiple), ← hbuffer]
  exact List.drop_length recv_data

/-- Witness of C12: four records arrive at process 1; the first particle is
inserted, the second is dropped by the cap, the third is in the cell of process
0 and the fourth is in no cell; the cursor ends at the end of the buffer. -/
theorem unpack_framing_witness :
    (reinsert_loop world_unpack 0 4 (wire fixed_format plain_integrator arrivals_unpack)
        world_unpack.particles)
      = ([((0, 1), particle_at 80 20 1)], [])
    ∧ ((∀ (n i : Nat) (cursor : List Nat) (particles : ParticleMap Centi),
          (reinsert_loop world_unpack i n cursor particles).2
            = cursor.drop (n * world_unpack.particle_size))
      ∧ (reinsert_loop world_unpack 0 ([16].sum / world_unpack.particle_size)
          (wire fixed_format plain_integrator arrivals_unpack) world_unpack.particles).2
          = []) :=
  ⟨by decide,
   unpack_framing world_unpack [16] (wire fixed_format plain_integrator arrivals_unpack)
     (fun _ => rfl) (fun _ _ => rfl) (by decide) (by decide)⟩

end unpack_claims

/-! ## Claims on `add_particle` and on the density cap -/

section add_claims
variable {Pt : Type}

/-- What `add_particle` does: it fails exactly when the iterator of the cell is
the past-the-end iterator, and otherwise adds the one entry. -/
theorem add_particle_spec (w : World Pt) (is_end : LevelInd → Bool) (p : Particle Pt)
    (k : LevelInd) :
    (w.add_particle is_end p k = none ↔ is_end k = true)
    ∧ ∀ w1, w.add_particle is_end p k = some w1 →
        w1.particles.Perm ((k, p) :: w.particles)
        ∧ w1.particles.length = w.particles.length + 1 := by
  unfold World.add_particle
  by_cases h : is_end k = true
  · simp [h]
  · simp only [h, if_false, Bool.false_eq_true, false_iff, not_false_eq_true, true_and]
    refine ⟨by simp, ?_⟩
    intro w1 hw1
    injection hw1 with hw1
    subst hw1
    exact ⟨multimap_insert_perm _ _ _, by
      rw [(multimap_insert_perm LevelInd.less (k, p) w.particles).length_eq]; rfl⟩

/-- C14, the failing input: process 0 of the split unit square adds a particle
to the cell `(0,1)`, a ghost cell owned by process 1.  The iterator of the cell
is not the past-the-end iterator, the check passes and the particle is in the
store, under the key of a cell that is not locally owned. -/
theorem add_particle_accepts_ghost_cell :
    ¬ LocallyOwnedKey (two_rank_mesh 0) (0, 1)
    ∧ (two_rank_mesh 0).is_end (0, 1) = false
    ∧ ((two_rank_world 0 0 []).add_particle (two_rank_mesh 0).is_end (particle_at 75 50 1)
        (0, 1)).map (fun w => w.particles)
      = some [((0, 1), particle_at 75 50 1)] := by
  decide

end add_claims

section density_claims
variable {Pt : Type}

theorem stride_pick_length_ge {α : Type} (f : Nat) (hf : 0 < f) (l : List α) (s : Nat) :
    l.length ≤ (stride_pick f l s).length * f + (f - s % f) % f := by
  induction l generalizing s with
  | nil => simp [stride_pick]
  | cons a t ih =>
    have hlt : s % f < f := Nat.mod_lt s hf
    have ih1 := ih (s + 1)
    by_cases hr : s % f = 0
    · have hs1 : (s + 1) % f = 1 % f := by
        rw [Nat.add_mod, hr, Nat.zero_add, Nat.mod_mod]
      simp only [stride_pick, hr, if_true, List.length_cons, Nat.sub_zero, Nat.mod_self,
        Nat.add_zero]
      rw [hs1] at ih1
      rw [Nat.add_mul, Nat.one_mul]
      by_cases hf1 : f = 1
      · subst hf1
        simp only [Nat.mod_self, Nat.sub_zero, Nat.add_zero] at ih1
        omega
      · have h1 : 1 % f = 1 := Nat.mod_eq_of_lt (by omega)
        rw [h1, Nat.mod_eq_of_lt (by omega)] at ih1
        omega
    · simp only [stride_pick, hr, if_false, List.length_cons]
      have hmod : (f - s % f) % f = f - s % f := Nat.mod_eq_of_lt (by omega)
      rw [hmod]
      by_cases hwrap : s % f + 1 = f
      · have hs1 : (s + 1) % f = 0 := by
          rw [Nat.add_mod]
          by_cases hf1 : f = 1
          · subst hf1
            exact absurd (Nat.mod_one s) hr
          · rw [Nat.mod_eq_of_lt (show 1 < f by omega), hwrap, Nat.mod_self]
        rw [hs1] at ih1
        simp only [Nat.sub_zero, Nat.mod_self, Nat.add_zero] at ih1
        omega
      · have h1 : 1 % f = 1 := Nat.mod_eq_of_lt (by omega)
        have hs1 : (s + 1) % f = s % f + 1 := by
          rw [Nat.add_mod, h1]
          exact Nat.mod_eq_of_lt (by omega)
        rw [hs1, Nat.mod_eq_of_lt (by omega)] at ih1
        omega

/-- The count `store_tracers` writes with status COARSEN never exceeds the number
of records it writes. -/
theorem coarsen_header_le_written (w : World Pt) (cell : CellIterator) :
    (w.store_tracers cell CellStatus.CELL_COARSEN).2.n_particles_in_cell
      ≤ (written_particles
          (decide (w.max_particles_per_cell > 0)
            && decide (count_children w.particles cell.children > w.max_particles_per_cell))
          (coarsen_factor w.dim) (children_stream w.particles cell.children) 0).length := by
  have hf : 0 < coarsen_factor w.dim := by
    unfold coarsen_factor
    split <;> decide
  simp only [World.store_tracers, written_particles]
  split
  · have h := stride_pick_length_ge (coarsen_factor w.dim) hf
      (children_stream w.particles cell.children) 0
    simp only [Nat.zero_mod, Nat.sub_zero, Nat.mod_self, Nat.add_zero] at h
    rw [count_children_eq]
    exact Nat.div_le_of_le_mul (by rw [Nat.mul_comm]; exact h)
  · rw [count_children_eq]

theorem equal_range_flatten_load_entries_refine_of_not_mem (mesh : Mesh Pt)
    (cell : CellIterator) (hnodup : cell.children.Nodup) (k : LevelInd)
    (hk : k ∉ cell.children) (ps : List (Particle Pt)) :
    equal_range ((ps.map (load_entries mesh cell CellStatus.CELL_REFINE)).flatten) k = [] := by
  induction ps with
  | nil => rfl
  | cons q ps ih =>
    rw [List.map_cons, List.flatten_cons, equal_range_append, ih,
      equal_range_load_entries_refine mesh cell hnodup]
    simp [hk]

theorem count_children_le (w : World Pt) (children : List LevelInd) (hbound : DensityBounded w) :
    count_children w.particles children ≤ children.length * w.max_particles_per_cell := by
  rw [count_children_eq]
  unfold children_stream
  rw [List.length_flatten, List.map_map]
  have h := List.sum_le_card_nsmul (children.map (List.length ∘ equal_range w.particles))
    w.max_particles_per_cell (by
      intro x hx
      obtain ⟨c, _, hc⟩ := List.mem_map.1 hx
      rw [← hc]
      exact hbound c)
  simpa using h

/-- C15, as stated, fails: with `Nmax = 1`, two calls of `add_particle` on the
same locally owned cell lead from the empty store to a store with two particles
under one key. -/
theorem density_invariant_counterexample :
    0 < world_cap_one.max_particles_per_cell
    ∧ ¬ (∀ w, Reachable world_cap_one unit_square_mesh.is_end w → DensityBounded w) := by
  refine ⟨by decide, ?_⟩
  intro h
  have h1 : Reachable world_cap_one unit_square_mesh.is_end
      { world_cap_one with particles := [((0, 0), particle_at 25 75 1)] } :=
    Reachable.add _ _ (particle_at 25 75 1) (0, 0) Reachable.start rfl
  have h2 : Reachable world_cap_one unit_square_mesh.is_end
      { world_cap_one with
        particles := [((0, 0), particle_at 25 75 1), ((0, 0), particle_at 75 25 2)] } :=
    Reachable.add _ _ (particle_at 75 25 2) (0, 0) h1 rfl
  exact absurd (h _ h2 (0, 0)) (by decide)

/-- C15, amended: the store and load callbacks keep the density bound.  When
`Nmax > 0`, every key holds at most `Nmax` particles, and the callbacks are
invoked on a cell with distinct child keys as the mesh layer does (`CallbackReady`),
then after `store_tracers` and `load_tracers` with status PERSIST, REFINE or
COARSEN every key holds at most `Nmax` particles. -/
theorem callbacks_keep_density_bound (w : World Pt) (cell : CellIterator)
    (status : CellStatus)
    (hfmt : RoundTrip w.property_manager.format)
    (hcap : 0 < w.max_particles_per_cell)
    (hnodup : cell.children.Nodup)
    (hready : CallbackReady w cell status)
    (hbound : DensityBounded w) :
    ∀ k, multimap_count (w.store_then_load cell status) k ≤ w.max_particles_per_cell := by
  intro k
  unfold multimap_count
  cases status with
  | CELL_PERSIST =>
    have h := load_loop_perm w.mesh w.property_manager.format hfmt cell
      CellStatus.CELL_PERSIST (equal_range w.particles cell.key).length
      (equal_range w.particles cell.key) [] (erase_range w.particles cell.key) (Nat.le_refl _)
    rw [List.take_length, load_entries_not_refine _ _ _ (by decide)] at h
    have h2 : (equal_range (w.store_then_load cell CellStatus.CELL_PERSIST) k).Perm
        (equal_range (erase_range w.particles cell.key
          ++ (equal_range w.particles cell.key).map (fun p => (cell.key, p))) k) := by
      refine equal_range_perm (List.Perm.trans (List.Perm.of_eq ?_) h) k
      simp only [World.store_then_load, World.load_tracers, World.store_tracers, records,
        List.append_nil]
    rw [h2.length_eq, equal_range_append]
    by_cases hk : cell.key = k
    · subst hk
      rw [equal_range_erase_range_self, equal_range_map_mk, List.nil_append]
      exact hbound cell.key
    · rw [equal_range_erase_range_ne _ hk, equal_range_map_mk_ne hk, List.append_nil]
      exact hbound k
  | CELL_REFINE =>
    have h := load_loop_perm w.mesh w.property_manager.format hfmt cell
      CellStatus.CELL_REFINE (equal_range w.particles cell.key).length
      (equal_range w.particles cell.key) [] (erase_range w.particles cell.key) (Nat.le_refl _)
    rw [List.take_length] at h
    have h2 : (equal_range (w.store_then_load cell CellStatus.CELL_REFINE) k).Perm
        (equal_range (erase_range w.particles cell.key
          ++ ((equal_range w.particles cell.key).map
              (load_entries w.mesh cell CellStatus.CELL_REFINE)).flatten) k) := by
      refine equal_range_perm (List.Perm.trans (List.Perm.of_eq ?_) h) k
      simp only [World.store_then_load, World.load_tracers, World.store_tracers, records,
        List.append_nil]
    rw [h2.length_eq, equal_range_append, List.length_append]
    by_cases hk : k ∈ cell.children
    · rw [equal_range_erase_range_of_empty _ _ _ (hready k hk),
        equal_range_flatten_load_entries_refine _ _ hnodup k hk, List.length_nil, Nat.zero_add]
      exact (List.length_filter_le _ _).trans (hbound cell.key)
    · rw [equal_range_flatten_load_entries_refine_of_not_mem _ _ hnodup k hk, List.length_nil,
        Nat.add_zero]
      by_cases hkey : cell.key = k
      · subst hkey
        rw [equal_range_erase_range_self]
        exact Nat.zero_le _
      · rw [equal_range_erase_range_ne _ hkey]
        exact hbound k
  | CELL_COARSEN =>
    obtain ⟨hparent, hchildren⟩ := hready
    have hf : 0 < coarsen_factor w.dim := by
      unfold coarsen_factor
      split <;> decide
    have hheader : (w.store_tracers cell CellStatus.CELL_COARSEN).2.n_particles_in_cell
        ≤ w.max_particles_per_cell := by
      have hsum := count_children_le w cell.children hbound
      simp only [World.store_tracers]
      split
      · apply Nat.div_le_of_le_mul
        exact hsum.trans (Nat.mul_le_mul_right _ hchildren)
      · rename_i hred
        simp only [hcap, decide_True, Bool.true_and, decide_eq_true_eq] at hred
        omega
    have h := store_then_load_coarsen w cell hfmt hnodup (coarsen_header_le_written w cell)
    rw [(equal_range_perm h k).length_eq, equal_range_append, List.length_append]
    by_cases hk : cell.key = k
    · subst hk
      rw [equal_range_erase_children _ _ _ hparent, equal_range_map_mk, List.length_nil,
        Nat.zero_add]
      exact (List.length_take_le _ _).trans hheader
    · rw [equal_range_map_mk_ne hk, List.length_nil, Nat.add_zero, erase_children_eq_filter,
        equal_range_filter_keys w.particles (fun c => !decide (c ∈ cell.children)) k]
      split
      · exact hbound k
      · exact Nat.zero_le _

end density_claims

/-! ## Claims on the transfer size -/

section transfer_claims
variable {Pt : Type}

theorem density_bounded_of_present (w : World Pt)
    (h : ∀ e ∈ w.particles, multimap_count w.particles e.1 ≤ w.max_particles_per_cell) :
    DensityBounded w := by
  intro k
  by_cases hk : ∃ e ∈ w.particles, e.1 = k
  · obtain ⟨e, he, hek⟩ := hk
    rw [← hek]
    exact h e he
  · have hnil : equal_range w.particles k = [] := by
      unfold equal_range
      rw [List.map_eq_nil_iff, List.filter_eq_nil_iff]
      intro e he
      have : e.1 ≠ k := fun hek => hk ⟨e, he, hek⟩
      simpa using this
    unfold multimap_count
    rw [hnil]
    exact Nat.zero_le _

/-- Witness of the amended C15: scenario S3, four children with four particles
each under a cap of four are coarsened. -/
theorem callbacks_keep_density_bound_witness :
    world_S3.store_then_load cell_S2 CellStatus.CELL_COARSEN
      = [((0, 0), particle_at 25 25 1), ((0, 0), particle_at 75 25 5),
         ((0, 0), particle_at 25 75 9), ((0, 0), particle_at 75 75 13)]
    ∧ DensityBounded world_S3
    ∧ ∀ k, multimap_count (world_S3.store_then_load cell_S2 CellStatus.CELL_COARSEN) k
        ≤ world_S3.max_particles_per_cell :=
  ⟨by decide, density_bounded_of_present world_S3 (by decide),
   callbacks_keep_density_bound world_S3 cell_S2 CellStatus.CELL_COARSEN
     plane_format_round_trip (by decide) (by decide) ⟨by decide, by decide⟩
     (density_bounded_of_present world_S3 (by decide))⟩

theorem stride_pick_sublist {α : Type} (f : Nat) (l : List α) (s : Nat) :
    (stride_pick f l s).Sublist l := by
  induction l generalizing s with
  | nil => exact List.Sublist.refl _
  | cons a t ih =>
    unfold stride_pick
    split
    · exact (ih (s + 1)).cons₂ a
    · exact (ih (s + 1)).cons a

theorem written_particles_sublist (reduce_tracers : Bool) (f : Nat)
    (stream : List (Particle Pt)) (s : Nat) :
    (written_particles reduce_tracers f stream s).Sublist stream := by
  unfold written_particles
  split
  · exact stride_pick_sublist f stream s
  · exact List.Sublist.refl _

theorem records_length (pm : Manager Pt) (ps : List (Particle Pt))
    (h : ∀ p ∈ ps, (pm.format.write_data p).length = pm.get_particle_size) :
    (records pm.format ps).length = ps.length * pm.get_particle_size := by
  induction ps with
  | nil => simp [records]
  | cons p ps ih =>
    have hcons : records pm.format (p :: ps) = pm.format.write_data p ++ records pm.format ps := by
      simp [records]
    rw [hcons, List.length_append, ih (fun q hq => h q (List.mem_cons_of_mem _ hq)),
      h p (List.mem_cons_self p ps), List.length_cons, Nat.add_mul, Nat.one_mul]
    omega

theorem mem_children_stream (particles : ParticleMap Pt) (children : List LevelInd)
    (p : Particle Pt) (hp : p ∈ children_stream particles children) :
    ∃ c, (c, p) ∈ particles := by
  unfold children_stream at hp
  obtain ⟨l, hl, hpl⟩ := List.mem_flatten.1 hp
  obtain ⟨c, _, hc⟩ := List.mem_map.1 hl
  subst hc
  exact ⟨c, (mem_equal_range particles c p).1 hpl⟩

theorem local_max_loop (particles : ParticleMap Pt) (cells : List ActiveCell) (start : Nat) :
    start ≤ cells.foldl
        (fun local_max cell =>
          if cell.is_locally_owned then max local_max (multimap_count particles cell.key)
          else local_max)
        start
    ∧ ∀ c ∈ cells, c.is_locally_owned = true →
        multimap_count particles c.key ≤ cells.foldl
          (fun local_max cell =>
            if cell.is_locally_owned then max local_max (multimap_count particles cell.key)
            else local_max)
          start := by
  induction cells generalizing start with
  | nil => exact ⟨Nat.le_refl _, fun c hc => absurd hc (List.not_mem_nil c)⟩
  | cons c cs ih =>
    simp only [List.foldl_cons]
    by_cases hown : c.is_locally_owned = true
    · simp only [hown, if_true]
      obtain ⟨h1, h2⟩ := ih (max start (multimap_count particles c.key))
      refine ⟨(Nat.le_max_left _ _).trans h1, ?_⟩
      intro c1 hc1 hown1
      rcases List.mem_cons.1 hc1 with heq | hmem
      · subst heq
        exact (Nat.le_max_right _ _).trans h1
      · exact h2 c1 hmem hown1
    · simp only [hown, if_false, Bool.false_eq_true]
      obtain ⟨h1, h2⟩ := ih start
      refine ⟨h1, ?_⟩
      intro c1 hc1 hown1
      rcases List.mem_cons.1 hc1 with heq | hmem
      · subst heq
        exact absurd hown1 hown
      · exact h2 c1 hmem hown1

theorem le_foldl_max (others : List Nat) (start : Nat) : start ≤ others.foldl max start := by
  induction others generalizing start with
  | nil => exact Nat.le_refl _
  | cons a rest ih => exact (Nat.le_max_left start a).trans (ih (max start a))

/-- A locally owned cell holds at most as many particles as
`get_global_max_tracer_per_cell` returns. -/
theorem count_le_global_max (w : World Pt) (others : List Nat) (k : LevelInd)
    (hk : LocallyOwnedKey w.mesh k) :
    multimap_count w.particles k ≤ w.get_global_max_tracer_per_cell others := by
  obtain ⟨c, hc, hkey, hown⟩ := hk
  rw [← hkey]
  exact ((local_max_loop w.particles w.mesh.active_cells 0).2 c hc hown).trans
    (le_foldl_max others _)

/-- C18. The registered per-cell transfer size is sufficient: with `Mmax` the
value of `get_global_max_tracer_per_cell` and
`T = sizeof(unsigned int) + get_particle_size() * Mmax * 2^dim`, for every cell
the store callback is invoked on and every status the bytes `store_tracers`
writes, `sizeof(unsigned int)` plus `get_particle_size()` for each record
written, are at most `T`. -/
theorem transfer_size_sufficient (w : World Pt) (cell : CellIterator) (status : CellStatus)
    (others : List Nat)
    (hsize : ∀ e ∈ w.particles,
      (w.property_manager.format.write_data e.2).length
        = w.property_manager.get_particle_size)
    (hcell : StoreCallbackCell w cell status) :
    ∃ written : List (Particle Pt),
      (w.store_tracers cell status).2.data = records w.property_manager.format written
      ∧ (w.store_tracers cell status).2.bytes_written
          = 4 + written.length * w.property_manager.get_particle_size
      ∧ (w.store_tracers cell status).2.bytes_written
          ≤ w.transfer_size_per_cell (w.get_global_max_tracer_per_cell others) := by
  have hpow : 1 ≤ 2 ^ w.dim := Nat.two_pow_pos w.dim
  have hfinish : ∀ written : List (Particle Pt),
      (w.store_tracers cell status).2.data = records w.property_manager.format written →
      (∀ p ∈ written, ∃ c, (c, p) ∈ w.particles) →
      written.length ≤ w.get_global_max_tracer_per_cell others * 2 ^ w.dim →
      ∃ written : List (Particle Pt),
        (w.store_tracers cell status).2.data = records w.property_manager.format written
        ∧ (w.store_tracers cell status).2.bytes_written
            = 4 + written.length * w.property_manager.get_particle_size
        ∧ (w.store_tracers cell status).2.bytes_written
            ≤ w.transfer_size_per_cell (w.get_global_max_tracer_per_cell others) := by
    intro written hdata hmem hlen
    have hbytes : (w.store_tracers cell status).2.bytes_written
        = 4 + written.length * w.property_manager.get_particle_size := by
      unfold CellData.bytes_written
      rw [hdata, records_length w.property_manager written (fun p hp => by
        obtain ⟨c, hc⟩ := hmem p hp
        exact hsize (c, p) hc)]
    refine ⟨written, hdata, hbytes, ?_⟩
    rw [hbytes]
    unfold World.transfer_size_per_cell
    have hmul := Nat.mul_le_mul_right w.property_manager.get_particle_size hlen
    have hcomm : w.get_global_max_tracer_per_cell others * 2 ^ w.dim
          * w.property_manager.get_particle_size
        = w.property_manager.get_particle_size * w.get_global_max_tracer_per_cell others
          * 2 ^ w.dim := by
      rw [Nat.mul_comm, Nat.mul_assoc]
    rw [hcomm] at hmul
    omega
  have hsingle : status ≠ CellStatus.CELL_COARSEN → LocallyOwnedKey w.mesh cell.key →
      (w.store_tracers cell status).2.data
          = records w.property_manager.format (equal_range w.particles cell.key)
        ∧ (equal_range w.particles cell.key).length
          ≤ w.get_global_max_tracer_per_cell others * 2 ^ w.dim := by
    intro hs hk
    refine ⟨?_, ?_⟩
    · cases status
      · rfl
      · rfl
      · exact absurd rfl hs
    · have h := count_le_global_max w others cell.key hk
      unfold multimap_count at h
      exact h.trans (Nat.le_mul_of_pos_right _ hpow)
  cases status with
  | CELL_PERSIST =>
    obtain ⟨h1, h2⟩ := hsingle (by decide) hcell
    exact hfinish _ h1 (fun p hp => ⟨cell.key, (mem_equal_range _ _ _).1 hp⟩) h2
  | CELL_REFINE =>
    obtain ⟨h1, h2⟩ := hsingle (by decide) hcell
    exact hfinish _ h1 (fun p hp => ⟨cell.key, (mem_equal_range _ _ _).1 hp⟩) h2
  | CELL_COARSEN =>
    obtain ⟨hnodup, hchildren, hown⟩ := hcell
    have hdata : (w.store_tracers cell CellStatus.CELL_COARSEN).2.data
        = records w.property_manager.format
          (written_particles
            (decide (w.max_particles_per_cell > 0)
              && decide (count_children w.particles cell.children
                  > w.max_particles_per_cell))
            (coarsen_factor w.dim) (children_stream w.particles cell.children) 0) := by
      simp only [World.store_tracers, store_children_eq _ _ _ _ hnodup, List.nil_append]
    refine hfinish _ hdata ?_ ?_
    · intro p hp
      exact mem_children_stream w.particles cell.children p
        ((written_particles_sublist _ _ _ _).subset hp)
    · refine (written_particles_sublist _ _ _ _).length_le.trans ?_
      unfold children_stream
      rw [List.length_flatten, List.map_map]
      have h := List.sum_le_card_nsmul
        (cell.children.map (List.length ∘ equal_range w.particles))
        (w.get_global_max_tracer_per_cell others) (by
          intro x hx
          obtain ⟨c, hc, hxc⟩ := List.mem_map.1 hx
          rw [← hxc]
          exact count_le_global_max w others c (hown c hc))
      rw [List.length_map, hchildren] at h
      simpa [Nat.mul_comm] using h

/-- Witness of C18: scenario S3, four children with four particles each are
coarsened under a cap of four; `T = 4 + 4 * 4 * 4 = 68` and twenty bytes are
written. -/
theorem transfer_size_sufficient_witness :
    world_S3.register_store_callback_function [] = some 68
    ∧ (world_S3.store_tracers cell_S2 CellStatus.CELL_COARSEN).2.bytes_written = 20
    ∧ ∃ written : List (Particle Centi),
        (world_S3.store_tracers cell_S2 CellStatus.CELL_COARSEN).2.data
          = records world_S3.property_manager.format written
        ∧ (world_S3.store_tracers cell_S2 CellStatus.CELL_COARSEN).2.bytes_written
            = 4 + written.length * world_S3.property_manager.get_particle_size
        ∧ (world_S3.store_tracers cell_S2 CellStatus.CELL_COARSEN).2.bytes_written
            ≤ world_S3.transfer_size_per_cell (world_S3.get_global_max_tracer_per_cell []) :=
  ⟨by decide, by decide,
   transfer_size_sufficient world_S3 cell_S2 CellStatus.CELL_COARSEN [] (by decide)
     ⟨by decide, by decide, by decide⟩⟩

end transfer_claims

end aspect
